import Mathlib

set_option maxRecDepth 40000

/-!
Verification development for the dataset-profiling engine of the EDA dashboard
(source module: src/utils/DataAnalysis.tsx).

Modelling conventions (shallow embedding):
* JavaScript numbers are modelled exactly: a JS double is a finite rational
  (`JNum.fin`), `NaN` (`JNum.nan`) or a signed infinity (`JNum.inf b`, with
  `b = true` for positive infinity).  Arithmetic follows the IEEE/ECMAScript
  rules for the special values and is exact (no binary rounding) on finite
  values; all zeroes are identified with +0.
* `Math.sqrt` is modelled by `jsqrt`/`ratSqrt`: it is exact on rational
  perfect squares (the only case whose exact value any theorem below relies
  on), returns an arbitrary positive rational on other positive inputs, and
  follows `Math.sqrt` for NaN, negative and infinite inputs and for zero.
* Strings are Lean strings; the handful of string operations used by the
  engine (trim, toLowerCase, the whitespace-collapsing rename regex, numeric
  parsing) are implemented over the character list.  The numeric-string
  parser covers decimal literals and Infinity (the forms exercised by the
  engine); hexadecimal and exponent forms of the ECMAScript grammar are
  omitted, no theorem depends on them.
* Date parsing (`new Date(v)` validity) is abstracted by `jsDateValid`; no
  theorem depends on its exact extension.
* `lodash` helpers are modelled by their documented behaviour: `_.orderBy`
  is a stable sort, `_.uniq`/`_.uniqBy` keep first occurrences under
  SameValueZero, `_.sum`/`_.mean`/`_.meanBy` are left folds with `+`,
  `_.countBy` builds a first-seen-ordered frequency table.
* The impure metadata timestamp (`new Date().toISOString()`) is omitted from
  the profile structure; everything else the analyzer returns is modelled.
-/

/-- Model of a JavaScript number: finite (exact rational), NaN, or ±Infinity. -/
inductive JNum where
  | fin (q : ℚ)
  | nan
  | inf (pos : Bool)
deriving DecidableEq, Repr

/-- JavaScript addition on numbers. -/
def jadd : JNum → JNum → JNum
  | .nan, _ => .nan
  | _, .nan => .nan
  | .inf b1, .inf b2 => if b1 = b2 then .inf b1 else .nan
  | .inf b, .fin _ => .inf b
  | .fin _, .inf b => .inf b
  | .fin a, .fin b => .fin (a + b)

/-- JavaScript negation on numbers (sign of infinities flips; −0 is identified with 0). -/
def jneg : JNum → JNum
  | .nan => .nan
  | .inf b => .inf (!b)
  | .fin a => .fin (-a)

/-- JavaScript subtraction on numbers. -/
def jsub (x y : JNum) : JNum := jadd x (jneg y)

/-- JavaScript multiplication on numbers. -/
def jmul : JNum → JNum → JNum
  | .nan, _ => .nan
  | _, .nan => .nan
  | .inf b1, .inf b2 => .inf (b1 = b2)
  | .inf b, .fin a => if a = 0 then .nan else .inf (b = decide (0 < a))
  | .fin a, .inf b => if a = 0 then .nan else .inf (b = decide (0 < a))
  | .fin a, .fin b => .fin (a * b)

/-- JavaScript division on numbers (0/0 and NaN propagation give NaN, x/0 gives a
signed infinity for x ≠ 0, finite/∞ gives 0; zero is treated as +0 throughout). -/
def jdiv : JNum → JNum → JNum
  | .nan, _ => .nan
  | _, .nan => .nan
  | .inf _, .inf _ => .nan
  | .inf b, .fin a => .inf (b = decide (0 ≤ a))
  | .fin _, .inf _ => .fin 0
  | .fin a, .fin b =>
    if b = 0 then (if a = 0 then .nan else .inf (decide (0 < a))) else .fin (a / b)

/-- JavaScript natural-exponent power (`Math.pow` with a small literal exponent). -/
def jpow (x : JNum) : ℕ → JNum
  | 0 => .fin 1
  | k + 1 => jmul (jpow x k) x

/-- JavaScript truthiness of a number: 0 and NaN are falsy. -/
def jsTruthy : JNum → Bool
  | .fin a => a ≠ 0
  | .nan => false
  | .inf _ => true

/-- JavaScript strict less-than on numbers (false whenever a NaN is involved). -/
def jlt : JNum → JNum → Bool
  | .nan, _ => false
  | _, .nan => false
  | .inf b1, .inf b2 => !b1 && b2
  | .inf b, .fin _ => !b
  | .fin _, .inf b => b
  | .fin a, .fin b => a < b

/-- Left fold with JavaScript `+` starting from 0, modelling lodash `_.sum`. -/
def jsum (l : List JNum) : JNum := l.foldl jadd (.fin 0)

/-- Fuel-based binary search for the integer square root on [lo, hi]
(kernel-reducible in logarithmically many steps). -/
def isqrtBin : ℕ → ℕ → ℕ → ℕ → ℕ
  | 0, _, lo, _ => lo
  | fuel + 1, n, lo, hi =>
    if hi ≤ lo then lo
    else
      if (lo + hi + 1) / 2 * ((lo + hi + 1) / 2) ≤ n then
        isqrtBin fuel n ((lo + hi + 1) / 2) hi
      else isqrtBin fuel n lo ((lo + hi + 1) / 2 - 1)

/-- Integer square root: the largest j ≤ n with j·j ≤ n. -/
def isqrt (n : ℕ) : ℕ := isqrtBin (n + 1) n 0 n

/-- Rational stand-in for `Math.sqrt` on nonnegative rationals: exact when the
argument is the square of a rational, an arbitrary positive value (1) otherwise;
0 maps to 0.  No theorem below depends on the value in the inexact case beyond
its positivity. -/
def ratSqrt (q : ℚ) : ℚ :=
  if q ≤ 0 then 0
  else if isqrt q.num.toNat * isqrt q.num.toNat = q.num.toNat ∧ isqrt q.den * isqrt q.den = q.den
    then (isqrt q.num.toNat : ℚ) / (isqrt q.den : ℚ)
  else 1

/-- JavaScript `Math.sqrt` on the number model. -/
def jsqrt : JNum → JNum
  | .nan => .nan
  | .inf b => if b then .inf true else .nan
  | .fin a => if a < 0 then .nan else .fin (ratSqrt a)

/-- Rounding to d decimal places, modelling `Number(x.toFixed(d))` on finite
values (ties round up, as in the ECMAScript toFixed specification). -/
def roundTo (d : ℕ) (q : ℚ) : ℚ := (round (q * 10 ^ d) : ℤ) / (10 ^ d : ℚ)

/-- Rounding to d decimal places on the number model; `toFixed` then `Number`
is the identity on NaN and infinities. -/
def roundToJ (d : ℕ) : JNum → JNum
  | .fin a => .fin (roundTo d a)
  | x => x

/-- Raw scalar cell value supplied by the ingestion layer: null, undefined,
string, number or boolean. -/
inductive JSVal where
  | vnull
  | vundefined
  | vstr (s : String)
  | vnum (x : JNum)
  | vbool (b : Bool)
deriving DecidableEq, Repr

/-- One raw row: an ordered mapping from column label to cell value (JS object
property order is insertion order). -/
abbrev Row := List (String × JSVal)

/-- ASCII lower-casing of a character (sufficient for the literals the engine
compares against). -/
def asciiLower (c : Char) : Char :=
  if 'A' ≤ c ∧ c ≤ 'Z' then Char.ofNat (c.toNat + 32) else c

/-- String lower-casing, modelling `toLowerCase` on the ASCII range. -/
def lowerStr (s : String) : String := String.mk (s.data.map asciiLower)

/-- Character-list trimming of leading and trailing whitespace. -/
def trimChars (l : List Char) : List Char :=
  ((l.dropWhile Char.isWhitespace).reverse.dropWhile Char.isWhitespace).reverse

/-- String trimming, modelling JavaScript `String.prototype.trim`. -/
def jsTrim (s : String) : String := String.mk (trimChars s.data)

/-- Splits a character list at each dot, for decimal-literal parsing. -/
def splitDot : List Char → List (List Char)
  | [] => [[]]
  | c :: cs =>
    let r := splitDot cs
    if c = '.' then [] :: r else (c :: r.headD []) :: r.tail

/-- Numeric value of a digit list (most significant first). -/
def digitsVal (l : List Char) : ℕ := l.foldl (fun acc c => acc * 10 + (c.toNat - '0'.toNat)) 0

/-- Parses an unsigned decimal literal ("12", "12.", "12.5", ".5") to a rational. -/
def parseUnsignedDec (l : List Char) : Option ℚ :=
  match splitDot l with
  | [w] => if !w.isEmpty && w.all Char.isDigit then some (digitsVal w) else none
  | [w, f] =>
    if (!w.isEmpty || !f.isEmpty) && w.all Char.isDigit && f.all Char.isDigit then
      some ((digitsVal w : ℚ) + (digitsVal f : ℚ) / (10 : ℚ) ^ f.length)
    else none
  | _ => none

/-- String-to-number conversion, modelling `Number(string)`: whitespace-only
strings give 0, decimal literals and Infinity parse, everything else is NaN. -/
def parseJSNumber (s : String) : JNum :=
  let t := trimChars s.data
  if t.isEmpty then .fin 0
  else if t = "Infinity".data ∨ t = "+Infinity".data then .inf true
  else if t = "-Infinity".data then .inf false
  else
    match t with
    | '-' :: body =>
      match parseUnsignedDec body with
      | some q => .fin (-q)
      | none => .nan
    | '+' :: body =>
      match parseUnsignedDec body with
      | some q => .fin q
      | none => .nan
    | body =>
      match parseUnsignedDec body with
      | some q => .fin q
      | none => .nan

/-- The ECMAScript `Number(v)` coercion on raw cell values. -/
def jsToNumber : JSVal → JNum
  | .vnull => .fin 0
  | .vundefined => .nan
  | .vbool b => .fin (if b then 1 else 0)
  | .vnum x => x
  | .vstr s => parseJSNumber s

/-- Checks `!isNaN(Number(v)) && isFinite(Number(v))`. -/
def isFiniteCoercible (v : JSVal) : Bool :=
  match jsToNumber v with
  | .fin _ => true
  | _ => false

/-- Checks `Number.isInteger(Number(v))`. -/
def isIntegerCoercible (v : JSVal) : Bool :=
  match jsToNumber v with
  | .fin q => q.den = 1
  | _ => false

/-- Checks the boolean-likeness test of the type detector: a native boolean or a
case-insensitive member of {"true","false","yes","no","1","0"}. -/
def isBooleanLike : JSVal → Bool
  | .vbool _ => true
  | .vstr s => ["true", "false", "yes", "no", "1", "0"].contains (lowerStr s)
  | _ => false

/-- Crude stand-in for the validity of `new Date(v)`: finite numbers and
booleans are valid timestamps, strings count as parseable when nonblank and
numeric-looking.  No theorem below depends on its exact extension. -/
def jsDateValid : JSVal → Bool
  | .vnum (.fin _) => true
  | .vbool _ => true
  | .vstr s =>
    !(trimChars s.data).isEmpty &&
      (match parseJSNumber s with
       | .fin _ => true
       | _ => false)
  | _ => false

/-- Inferred column type. -/
inductive ColType where
  | integer
  | float
  | boolean
  | date
  | string
  | unknown
deriving DecidableEq, Repr

/-- The non-null filter used throughout the engine, testing
v !== null && v !== undefined && v !== '' with strict equality. -/
def isNonNull : JSVal → Bool
  | .vnull => false
  | .vundefined => false
  | .vstr s => !(s == "")
  | _ => true

/-- Non-null values of a column. -/
def nonNullOf (values : List JSVal) : List JSVal :=
  values.filter isNonNull

/-- Determines the data type of a column based on its values
(source: detectColumnType). -/
def detectColumnType (values : List JSVal) : ColType :=
  let nonNullValues := nonNullOf values
  if nonNullValues.isEmpty then .unknown
  else
    let numericValues := nonNullValues.filter isFiniteCoercible
    if numericValues.length = nonNullValues.length then
      if numericValues.all isIntegerCoercible then .integer else .float
    else
      let booleanValues := nonNullValues.filter isBooleanLike
      if booleanValues.length = nonNullValues.length then .boolean
      else
        let dateValues := nonNullValues.filter jsDateValid
        if dateValues.length = nonNullValues.length then .date
        else .string

/-- Stats-record field: JavaScript null or a number. -/
inductive JField where
  | jnull
  | jnum (x : JNum)
deriving DecidableEq, Repr

/-- Numeric per-column statistics record (source: calculateNumericStats result shape). -/
structure NumericStats where
  count : ℕ
  mean : JField
  median : JField
  std : JField
  min : JField
  max : JField
  q1 : JField
  q3 : JField
  variance : JField
  skewness : JField
  kurtosis : JField
deriving DecidableEq, Repr

/-- Coerce-to-number, keep-finite, sort-ascending preprocessing of the numeric
statistics path (the array sort with comparator (a,b) => a - b). -/
def numericValuesOf (values : List JSVal) : List ℚ :=
  List.insertionSort (· ≤ ·)
    ((values.map jsToNumber).filterMap fun x =>
      match x with
      | .fin q => some q
      | _ => none)

/-- Arithmetic mean of the filtered sample (lodash _.mean). -/
def meanOf (nv : List ℚ) : ℚ := nv.sum / nv.length

/-- Sum of squared deviations of the filtered sample. -/
def sqDevSum (nv : List ℚ) : ℚ := (nv.map fun v => (v - meanOf nv) ^ 2).sum

/-- Sample variance with Bessel divisor count − 1, computed with JavaScript
division (0/0 = NaN when the sample has one element). -/
def varianceOf (nv : List ℚ) : JNum :=
  jdiv (.fin (sqDevSum nv)) (.fin ((nv.length : ℚ) - 1))

/-- Unrounded standard deviation Math.sqrt(variance). -/
def stdRawOf (nv : List ℚ) : JNum := jsqrt (varianceOf nv)

/-- Unrounded skewness: third standardized moment over count when count > 2, else null. -/
def skewRawOf (nv : List ℚ) : JField :=
  if 2 < nv.length then
    .jnum (jdiv (jsum (nv.map fun v => jpow (jdiv (.fin (v - meanOf nv)) (stdRawOf nv)) 3))
      (.fin (nv.length : ℚ)))
  else .jnull

/-- Unrounded excess kurtosis: fourth standardized moment over count minus 3
when count > 3, else null. -/
def kurtRawOf (nv : List ℚ) : JField :=
  if 3 < nv.length then
    .jnum (jsub
      (jdiv (jsum (nv.map fun v => jpow (jdiv (.fin (v - meanOf nv)) (stdRawOf nv)) 4))
        (.fin (nv.length : ℚ)))
      (.fin 3))
  else .jnull

/-- The median selection: average of the two middle elements when the count is
even, the single middle element otherwise. -/
def medianOf (nv : List ℚ) : ℚ :=
  if nv.length % 2 = 0 then (nv.getD (nv.length / 2 - 1) 0 + nv.getD (nv.length / 2) 0) / 2
  else nv.getD (nv.length / 2) 0

/-- The falsy-guarded rounding applied to skewness/kurtosis:
value ? Number(value.toFixed(4)) : null. -/
def jfalsyRound4 : JField → JField
  | .jnull => .jnull
  | .jnum x => if jsTruthy x then .jnum (roundToJ 4 x) else .jnull

/-- Calculates basic statistics for numeric data (source: calculateNumericStats). -/
def calculateNumericStats (values : List JSVal) : NumericStats :=
  let nv := numericValuesOf values
  if nv.isEmpty then
    { count := 0, mean := .jnull, median := .jnull, std := .jnull, min := .jnull,
      max := .jnull, q1 := .jnull, q3 := .jnull, variance := .jnull,
      skewness := .jnull, kurtosis := .jnull }
  else
    let n := nv.length
    { count := n
      mean := .jnum (.fin (roundTo 4 (meanOf nv)))
      median := .jnum (.fin (medianOf nv))
      std := .jnum (roundToJ 4 (stdRawOf nv))
      min := .jnum (.fin (nv.getD 0 0))
      max := .jnum (.fin (nv.getD (n - 1) 0))
      q1 := .jnum (.fin (nv.getD (n / 4) 0))
      q3 := .jnum (.fin (nv.getD (3 * n / 4) 0))
      variance := .jnum (roundToJ 4 (varianceOf nv))
      skewness := jfalsyRound4 (skewRawOf nv)
      kurtosis := jfalsyRound4 (kurtRawOf nv) }

/-- Idealized JavaScript number-to-string rendering, used only to build
frequency-table keys and quality messages; no theorem depends on its exact
format. -/
def jnumRepr : JNum → String
  | .fin q => if q.den = 1 then toString q.num else toString q.num ++ "/" ++ toString q.den
  | .nan => "NaN"
  | .inf true => "Infinity"
  | .inf false => "-Infinity"

/-- Idealized JavaScript ToString on raw values (object keys of _.countBy). -/
def jsToString : JSVal → String
  | .vstr s => s
  | .vbool true => "true"
  | .vbool false => "false"
  | .vnull => "null"
  | .vundefined => "undefined"
  | .vnum x => jnumRepr x

/-- First-seen-ordered frequency table, modelling lodash _.countBy with
stringified keys. -/
def countByStr (l : List String) : List (String × ℕ) :=
  l.foldl
    (fun acc s =>
      if acc.any (fun p => p.1 == s) then
        acc.map fun p => if p.1 == s then (p.1, p.2 + 1) else p
      else acc ++ [(s, 1)])
    []

/-- Stable descending sort by a numeric key, modelling lodash
_.orderBy(entries, [1], ['desc']). -/
def sortByCountDesc (l : List (String × ℕ)) : List (String × ℕ) :=
  List.insertionSort (fun a b => b.2 ≤ a.2) l

/-- Entry of the categorical top-ten table. -/
structure TopValue where
  value : String
  count : ℕ
  percentage : JNum
deriving DecidableEq, Repr

/-- Categorical per-column statistics record (source: calculateCategoricalStats
result shape). -/
structure CatStats where
  count : ℕ
  uniqueCount : ℕ
  mode : Option String
  modeFrequency : ℕ
  valueCounts : List (String × ℕ)
  topValues : List TopValue
deriving DecidableEq, Repr

/-- Calculates statistics for categorical data (source: calculateCategoricalStats). -/
def calculateCategoricalStats (values : List JSVal) : CatStats :=
  let nonNullValues := nonNullOf values
  let valueCounts := countByStr (nonNullValues.map jsToString)
  let sortedCounts := sortByCountDesc valueCounts
  let uniqueCount := valueCounts.length
  let totalCount := nonNullValues.length
  { count := totalCount
    uniqueCount := uniqueCount
    mode := (sortedCounts.head?).map Prod.fst
    modeFrequency := ((sortedCounts.head?).map Prod.snd).getD 0
    valueCounts := valueCounts
    topValues :=
      (sortedCounts.take 10).map fun p =>
        { value := p.1, count := p.2
          percentage := roundToJ 2 (jmul (jdiv (.fin (p.2 : ℚ)) (.fin (totalCount : ℚ))) (.fin 100)) } }

/-- Detects outliers using the IQR method (source: detectOutliers). -/
def detectOutliers (values : List JSVal) : List ℚ :=
  let numericValues := numericValuesOf values
  if numericValues.length < 4 then []
  else
    let count := numericValues.length
    let q1 := numericValues.getD (count / 4) 0
    let q3 := numericValues.getD (3 * count / 4) 0
    let iqr := q3 - q1
    let lowerBound := q1 - 3 / 2 * iqr
    let upperBound := q3 + 3 / 2 * iqr
    numericValues.filter fun v => v < lowerBound ∨ v > upperBound

/-- Missing-data record for one column (source: calculateMissingData result shape). -/
structure MissingData where
  total : ℕ
  missing : ℕ
  present : ℕ
  missingPercentage : JNum
  presentPercentage : JNum
deriving DecidableEq, Repr

/-- The missing-value test: null, undefined, empty or all-whitespace string, or NaN number. -/
def isMissingValue : JSVal → Bool
  | .vnull => true
  | .vundefined => true
  | .vstr s => s == "" || (trimChars s.data).isEmpty
  | .vnum x => x == .nan
  | .vbool _ => false

/-- Calculates missing data statistics (source: calculateMissingData). -/
def calculateMissingData (values : List JSVal) : MissingData :=
  let total := values.length
  let missing := (values.filter isMissingValue).length
  { total := total
    missing := missing
    present := total - missing
    missingPercentage := roundToJ 2 (jmul (jdiv (.fin (missing : ℚ)) (.fin (total : ℚ))) (.fin 100))
    presentPercentage :=
      roundToJ 2 (jmul (jdiv (.fin ((total - missing : ℕ) : ℚ)) (.fin (total : ℚ))) (.fin 100)) }

/-- Chart recommendation entry (source: suggestChartTypes push literals). -/
structure Suggestion where
  type : String
  title : String
  description : String
  requiredColumns : List (String × String)
  priority : String
deriving DecidableEq, Repr

/-- Column profile assembled by the orchestrator; stats is exactly one of the
two record shapes. -/
inductive Stats where
  | numeric (s : NumericStats)
  | categorical (s : CatStats)
deriving DecidableEq, Repr

/-- Column profile (source: the object literal built per column in analyzeDataset). -/
structure ColProfile where
  name : String
  type : ColType
  missingData : MissingData
  stats : Stats
  outliers : List ℚ
  sampleValues : List JSVal
deriving DecidableEq, Repr

/-- Numeric-type test used repeatedly by the engine. -/
def isNumericType (t : ColType) : Bool :=
  t == ColType.integer || t == ColType.float

/-- Categorical-type test of the chart recommender. -/
def isCategoricalType (t : ColType) : Bool :=
  t == ColType.string || t == ColType.boolean

/-- Name of the first column of a list; only read behind nonemptiness guards. -/
def headName (l : List ColProfile) : String :=
  match l with
  | [] => "undefined"
  | c :: _ => c.name

/-- The rule table of suggestChartTypes, in push order (before sorting). -/
def chartRules (columns : List ColProfile) : List Suggestion :=
  let numericColumns := columns.filter fun col => isNumericType col.type
  let categoricalColumns := columns.filter fun col => isCategoricalType col.type
  let dateColumns := columns.filter fun col => col.type == ColType.date
  (if 1 ≤ numericColumns.length then
    [{ type := "histogram", title := "Distribution Analysis",
       description := "Shows the distribution of numeric values",
       requiredColumns := [("x", headName numericColumns)], priority := "high" },
     { type := "boxplot", title := "Box Plot Analysis",
       description := "Shows quartiles and outliers",
       requiredColumns := [("x", headName numericColumns)], priority := "medium" }]
   else []) ++
  (if 2 ≤ numericColumns.length then
    [{ type := "scatter", title := "Correlation Analysis",
       description := "Shows relationship between two numeric variables",
       requiredColumns := [("x", headName numericColumns), ("y", headName numericColumns.tail)],
       priority := "high" }]
   else []) ++
  (if 3 ≤ numericColumns.length then
    [{ type := "heatmap", title := "Correlation Matrix",
       description := "Shows correlations between all numeric variables",
       requiredColumns := [], priority := "medium" }]
   else []) ++
  (if 1 ≤ categoricalColumns.length ∧ 1 ≤ numericColumns.length then
    [{ type := "bar", title := "Category Comparison",
       description := "Compare numeric values across categories",
       requiredColumns := [("x", headName categoricalColumns), ("y", headName numericColumns)],
       priority := "high" }]
   else []) ++
  (if 1 ≤ categoricalColumns.length then
    [{ type := "pie", title := "Category Distribution",
       description := "Shows proportion of each category",
       requiredColumns := [("x", headName categoricalColumns)], priority := "medium" }]
   else []) ++
  (if 1 ≤ dateColumns.length ∧ 1 ≤ numericColumns.length then
    [{ type := "line", title := "Time Series Analysis",
       description := "Shows trends over time",
       requiredColumns := [("x", headName dateColumns), ("y", headName numericColumns)],
       priority := "high" }]
   else [])

/-- Lexicographic less-than on character lists, modelling JavaScript string
comparison (code-point order on the ASCII range involved). -/
def charListLt : List Char → List Char → Bool
  | [], [] => false
  | [], _ :: _ => true
  | _ :: _, [] => false
  | a :: as, b :: bs => if a < b then true else if b < a then false else charListLt as bs

/-- JavaScript string less-than. -/
def jsStrLt (a b : String) : Bool := charListLt a.data b.data

/-- Suggests appropriate chart types (source: suggestChartTypes); the final
lodash orderBy(suggestions, [priority], [desc]) is a stable sort putting the
lexicographically larger priority string first. -/
def suggestChartTypes (columns : List ColProfile) : List Suggestion :=
  List.insertionSort (fun a b => jsStrLt a.priority b.priority = false) (chartRules columns)

/-- JavaScript object property read, undefined when the key is absent. -/
def objGet (r : Row) (k : String) : JSVal :=
  match (r : List (String × JSVal)).find? (fun p => p.1 == k) with
  | some p => p.2
  | none => .vundefined

/-- JavaScript object property write: overwrite in place or append. -/
def objSet (r : Row) (k : String) (v : JSVal) : Row :=
  if (r : List (String × JSVal)).any (fun p => p.1 == k) then
    (r : List (String × JSVal)).map fun p => if p.1 == k then (k, v) else p
  else (r : List (String × JSVal)) ++ [(k, v)]

/-- The finite-value sample of one named column (the per-column map and filter
of the correlation engine). -/
def colFiniteValues (data : List Row) (c : String) : List ℚ :=
  (data.map fun r => jsToNumber (objGet r c)).filterMap fun x =>
    match x with
    | .fin q => some q
    | _ => none

/-- Calculates the Pearson correlation coefficient by the sum formula
(source: pearsonCorrelation); inputs are the already-filtered finite samples. -/
def pearsonCorrelation (x y : List ℚ) : ℚ :=
  let n := x.length
  if n ≠ y.length ∨ n = 0 then 0
  else
    let sumX := x.sum
    let sumY := y.sum
    let sumXY := (List.zipWith (· * ·) x y).sum
    let sumX2 := (x.map fun xi => xi * xi).sum
    let sumY2 := (y.map fun yi => yi * yi).sum
    let numer := (n : ℚ) * sumXY - sumX * sumY
    let denom := ratSqrt (((n : ℚ) * sumX2 - sumX * sumX) * ((n : ℚ) * sumY2 - sumY * sumY))
    if denom = 0 then 0 else roundTo 4 (numer / denom)

/-- One cell of the correlation matrix: the guard keeps equal-length samples
with more than one element, everything else correlates as 0. -/
def corrCell (data : List Row) (c1 c2 : String) : ℚ :=
  let values1 := colFiniteValues data c1
  let values2 := colFiniteValues data c2
  if values1.length = values2.length ∧ 1 < values1.length then
    pearsonCorrelation values1 values2
  else 0

/-- Calculates the correlation matrix for numeric columns
(source: calculateCorrelationMatrix, the nested forEach). -/
def calculateCorrelationMatrix (data : List Row) (numericColumns : List String) :
    List (String × List (String × ℚ)) :=
  numericColumns.map fun c1 => (c1, numericColumns.map fun c2 => (c2, corrCell data c1 c2))

/-- Reads one entry of the correlation matrix (object property access). -/
def lookupCorr (m : List (String × List (String × ℚ))) (a b : String) : Option ℚ :=
  match m.find? (fun p => p.1 == a) with
  | some p => (p.2.find? (fun q => q.1 == b)).map Prod.snd
  | none => none

/-- Quality assessment result (source: assessDataQuality result shape). -/
structure Quality where
  issues : List String
  warnings : List String
  overallQuality : String
deriving DecidableEq, Repr

/-- First-occurrence deduplication with decidable equality, modelling lodash
_.uniq / _.uniqBy under SameValueZero (NaN equals NaN there). -/
def uniqFirstAux {α : Type} [DecidableEq α] : List α → List α → List α
  | [], _ => []
  | x :: xs, seen => if x ∈ seen then uniqFirstAux xs seen else x :: uniqFirstAux xs (x :: seen)

/-- First-occurrence deduplication. -/
def uniqFirst {α : Type} [DecidableEq α] (l : List α) : List α := uniqFirstAux l []

/-- Performs basic data quality assessment (source: assessDataQuality).
Duplicate-row detection via JSON.stringify is modelled as structural row
equality; the numeric text inside messages uses the idealized rendering. -/
def assessDataQuality (data : List Row) (columns : List ColProfile) : Quality :=
  let issues :=
    (columns.filter fun col => col.missingData.missing == col.missingData.total).map
      fun col => "Column '" ++ col.name ++ "' is completely empty"
  let missWarnings :=
    (columns.filter fun col =>
        !(col.missingData.missing == col.missingData.total) &&
          jlt (.fin 50) col.missingData.missingPercentage).map
      fun col =>
        "Column '" ++ col.name ++ "' has " ++ jnumRepr col.missingData.missingPercentage ++
          "% missing data"
  let duplicateCount := data.length - (uniqFirst data).length
  let dupWarnings :=
    if 0 < duplicateCount then ["Found " ++ toString duplicateCount ++ " duplicate rows"] else []
  let lowVarWarnings :=
    ((columns.filter fun col => isNumericType col.type).filter fun col =>
        match col.stats with
        | .numeric s =>
          match s.std with
          | .jnum x => jlt x (.fin (1 / 1000))
          | .jnull => false
        | .categorical _ => false).map
      fun col => "Column '" ++ col.name ++ "' has very low variance"
  let cardWarnings :=
    ((columns.filter fun col => col.type == ColType.string).filter fun col =>
        match col.stats with
        | .categorical s => decide ((data.length : ℚ) * (4 / 5) < (s.uniqueCount : ℚ))
        | .numeric _ => false).map
      fun col => "Column '" ++ col.name ++ "' has high cardinality"
  let warnings := missWarnings ++ dupWarnings ++ lowVarWarnings ++ cardWarnings
  { issues := issues
    warnings := warnings
    overallQuality :=
      if issues.isEmpty then (if warnings.isEmpty then "excellent" else "good") else "poor" }

/-- Collapses each maximal whitespace run to a single underscore (the
replace(/\s+/g, _) step); the flag records whether the previous character was
whitespace. -/
def collapseWsAux : List Char → Bool → List Char
  | [], _ => []
  | c :: cs, inWs =>
    if c.isWhitespace then
      (if inWs then collapseWsAux cs true else '_' :: collapseWsAux cs true)
    else c :: collapseWsAux cs false

/-- Column-name normalization of the orchestrator:
name.trim().replace(whitespace-runs, underscore).toLowerCase(). -/
def normalizeName (s : String) : String :=
  lowerStr (String.mk (collapseWsAux (trimChars s.data) false))

/-- Re-keys one row positionally under the normalized names (the Object.keys
forEach with index; an out-of-range index yields the JS key "undefined"). -/
def cleanRow (names : List String) (row : Row) : Row :=
  row.enum.foldl (fun acc p => objSet acc (names.getD p.1 "undefined") p.2.2) []

/-- The keep-filter of sampleValues: only null, undefined and the exactly-empty
string are excluded. -/
def sampleKeep (v : JSVal) : Bool := isNonNull v

/-- Builds one column profile (the map body over columnNames in analyzeDataset). -/
def buildColumn (cleanData : List Row) (name : String) : ColProfile :=
  let values := cleanData.map fun row => objGet row name
  let type := detectColumnType values
  let missingData := calculateMissingData values
  let stats :=
    if isNumericType type then Stats.numeric (calculateNumericStats values)
    else Stats.categorical (calculateCategoricalStats values)
  let outliers := if isNumericType type then detectOutliers values else []
  { name := name
    type := type
    missingData := missingData
    stats := stats
    outliers := if 0 < outliers.length then outliers.take 10 else []
    sampleValues := (uniqFirst (values.filter sampleKeep)).take 5 }

/-- Dataset summary (source: the summary literal of analyzeDataset). -/
structure Summary where
  totalRows : ℕ
  totalColumns : ℕ
  numericColumns : ℕ
  categoricalColumns : ℕ
  dateColumns : ℕ
  missingDataPercentage : JNum
  duplicateRows : ℕ
deriving DecidableEq, Repr

/-- The full dataset profile (source: the return literal of analyzeDataset;
the impure analyzedAt timestamp is omitted, dataTypes is the countBy of the
metadata). -/
structure DatasetProfile where
  filename : String
  data : List Row
  columns : List ColProfile
  summary : Summary
  correlations : List (String × List (String × ℚ))
  chartSuggestions : List Suggestion
  qualityAssessment : Quality
  dataTypes : List (String × ℕ)
deriving DecidableEq, Repr

/-- Rendering of a column type as the string key _.countBy uses. -/
def colTypeStr : ColType → String
  | .integer => "integer"
  | .float => "float"
  | .boolean => "boolean"
  | .date => "date"
  | .string => "string"
  | .unknown => "unknown"

/-- Main function to analyze a dataset (source: analyzeDataset); throwing is
modelled by the error branch of Except. -/
def analyzeDataset (data : List Row) (filename : String) : Except String DatasetProfile :=
  if data.isEmpty then .error "Dataset is empty or invalid"
  else
    let firstRow := data.headD []
    let columnNames := firstRow.map fun kv => normalizeName kv.1
    let cleanData := data.map (cleanRow columnNames)
    let columns := columnNames.map fun name => buildColumn cleanData name
    let numericColumnNames :=
      (columns.filter fun col => isNumericType col.type).map fun col => col.name
    let correlations :=
      if 2 ≤ numericColumnNames.length then calculateCorrelationMatrix cleanData numericColumnNames
      else []
    let chartSuggestions := suggestChartTypes columns
    let qualityAssessment := assessDataQuality cleanData columns
    let summary : Summary :=
      { totalRows := cleanData.length
        totalColumns := columns.length
        numericColumns := (columns.filter fun col => isNumericType col.type).length
        categoricalColumns := (columns.filter fun col => isCategoricalType col.type).length
        dateColumns := (columns.filter fun col => col.type == ColType.date).length
        missingDataPercentage :=
          roundToJ 2 (jdiv (jsum (columns.map fun col => col.missingData.missingPercentage))
            (.fin (columns.length : ℚ)))
        duplicateRows := cleanData.length - (uniqFirst cleanData).length }
    .ok
      { filename := filename
        data := cleanData
        columns := columns
        summary := summary
        correlations := correlations
        chartSuggestions := chartSuggestions
        qualityAssessment := qualityAssessment
        dataTypes := countByStr (columns.map fun col => colTypeStr col.type) }

/-! Helper lemmas about the number model and rounding. -/

theorem jdiv_fin_fin (a b : ℚ) (hb : b ≠ 0) : jdiv (.fin a) (.fin b) = .fin (a / b) := by
  simp [jdiv, hb]

theorem jmul_fin_fin (a b : ℚ) : jmul (.fin a) (.fin b) = .fin (a * b) := rfl

theorem roundToJ_fin (d : ℕ) (a : ℚ) : roundToJ d (.fin a) = .fin (roundTo d a) := rfl

theorem abs_roundTo_sub_le (d : ℕ) (q : ℚ) : |roundTo d q - q| ≤ 1 / (2 * 10 ^ d) := by
  have hpow : (0 : ℚ) < 10 ^ d := by positivity
  have h := abs_sub_round (q * 10 ^ d)
  have hq : roundTo d q - q = ((round (q * 10 ^ d) : ℚ) - q * 10 ^ d) / 10 ^ d := by
    rw [roundTo, div_sub' _ _ _ (ne_of_gt hpow)]
    ring_nf
  rw [hq, abs_div, abs_of_pos hpow, div_le_iff₀ hpow]
  rw [abs_sub_comm] at h
  calc |(round (q * 10 ^ d) : ℚ) - q * 10 ^ d| ≤ 1 / 2 := h
    _ = 1 / (2 * 10 ^ d) * 10 ^ d := by field_simp

/-! Claim C4. -/

/-- Claim C4 counterexample: the one-row dataset whose single row is the empty
object is NOT rejected — the orchestrator returns a profile for rows = [{}],
refuting the claim that this input must produce the empty-dataset error. -/
theorem analyzeDataset_singleton_empty_row_ok :
    (analyzeDataset [([] : Row)] "dataset").isOk = true := by
  with_unfolding_all decide

/-- Claim C4 (amended): analyzeDataset fails fast with the descriptive
empty-dataset error, returning no profile, exactly when the row list is empty;
any nonempty row list — including rows = [{}], a one-row dataset with an empty
row — produces a profile. -/
theorem analyzeDataset_error_iff_empty (data : List Row) (filename : String) :
    (data = [] → analyzeDataset data filename = .error "Dataset is empty or invalid") ∧
    (data ≠ [] → (analyzeDataset data filename).isOk = true) := by
  constructor
  · intro h
    subst h
    rfl
  · intro h
    cases data with
    | nil => exact absurd rfl h
    | cons r rs => rfl

/-- Claim C4 witness: the amended theorem applied at the empty list and at a
concrete one-row dataset. -/
theorem analyzeDataset_error_iff_empty_witness :
    analyzeDataset [] "dataset" = .error "Dataset is empty or invalid" ∧
    (analyzeDataset [([("a", JSVal.vnum (.fin 1))] : Row)] "dataset").isOk = true :=
  ⟨(analyzeDataset_error_iff_empty [] "dataset").1 rfl,
   (analyzeDataset_error_iff_empty [[("a", JSVal.vnum (.fin 1))]] "dataset").2
     (by exact List.cons_ne_nil _ _)⟩

/-! Claim C5. -/

/-- Claim C5 counterexample: on an empty value list the percentages are NaN
(0/0 propagates), not 0 as the claim states for total == 0. -/
theorem calculateMissingData_empty_percentages_nan :
    (calculateMissingData []).total = 0 ∧
    (calculateMissingData []).missingPercentage = JNum.nan ∧
    (calculateMissingData []).presentPercentage = JNum.nan ∧
    (calculateMissingData []).missingPercentage ≠ JNum.fin 0 := by
  with_unfolding_all decide

/-- Claim C5 (amended): for every column, missing + present == total and, when
the column is nonempty, both percentages are finite and sum to 100 within 0.01;
for total == 0 the percentages are NaN (not 0); a value counts as missing
exactly when it is null, undefined, the empty string, an all-whitespace string,
or a NaN number. -/
theorem calculateMissingData_accounting (values : List JSVal) :
    (calculateMissingData values).total = values.length ∧
    (calculateMissingData values).missing + (calculateMissingData values).present =
      (calculateMissingData values).total ∧
    (calculateMissingData values).missing =
      (values.filter isMissingValue).length ∧
    (∀ v ∈ values,
      isMissingValue v = true ↔
        (v = .vnull ∨ v = .vundefined ∨ v = .vstr "" ∨
          (∃ s, v = .vstr s ∧ trimChars s.data = []) ∨ v = .vnum .nan)) ∧
    (values ≠ [] →
      ∃ a b : ℚ,
        (calculateMissingData values).missingPercentage = .fin a ∧
        (calculateMissingData values).presentPercentage = .fin b ∧
        |a + b - 100| ≤ 1 / 100) ∧
    (values = [] →
      (calculateMissingData values).missingPercentage = .nan ∧
      (calculateMissingData values).presentPercentage = .nan) := by
  have hle : (values.filter isMissingValue).length ≤ values.length :=
    List.length_filter_le _ _
  refine ⟨rfl, ?_, rfl, ?_, ?_, ?_⟩
  · simp only [calculateMissingData]
    omega
  · intro v _
    cases v with
    | vnull => simp [isMissingValue]
    | vundefined => simp [isMissingValue]
    | vbool b => simp [isMissingValue]
    | vnum x => cases x <;> simp [isMissingValue]
    | vstr s => simp [isMissingValue, List.isEmpty_iff]
  · intro hne
    have htpos : 0 < values.length := List.length_pos.mpr hne
    have htQ : ((values.length : ℚ)) ≠ 0 := by positivity
    set m := (values.filter isMissingValue).length with hm
    set t := values.length with ht
    have hfin1 :
        (calculateMissingData values).missingPercentage =
          .fin (roundTo 2 ((m : ℚ) / (t : ℚ) * 100)) := by
      simp only [calculateMissingData, jdiv_fin_fin _ _ htQ, jmul_fin_fin, roundToJ_fin]
    have hfin2 :
        (calculateMissingData values).presentPercentage =
          .fin (roundTo 2 (((t - m : ℕ) : ℚ) / (t : ℚ) * 100)) := by
      simp only [calculateMissingData, jdiv_fin_fin _ _ htQ, jmul_fin_fin, roundToJ_fin]
    refine ⟨_, _, hfin1, hfin2, ?_⟩
    have hcast : ((t - m : ℕ) : ℚ) = (t : ℚ) - (m : ℚ) := by
      push_cast [Nat.cast_sub hle]
      ring
    have hsum : (m : ℚ) / (t : ℚ) * 100 + ((t - m : ℕ) : ℚ) / (t : ℚ) * 100 = 100 := by
      rw [hcast]
      field_simp
      ring
    have h1 := abs_roundTo_sub_le 2 ((m : ℚ) / (t : ℚ) * 100)
    have h2 := abs_roundTo_sub_le 2 (((t - m : ℕ) : ℚ) / (t : ℚ) * 100)
    have hb : (1 : ℚ) / (2 * 10 ^ 2) = 1 / 200 := by norm_num
    rw [hb] at h1 h2
    have := abs_add (roundTo 2 ((m : ℚ) / (t : ℚ) * 100) - (m : ℚ) / (t : ℚ) * 100)
      (roundTo 2 (((t - m : ℕ) : ℚ) / (t : ℚ) * 100) - ((t - m : ℕ) : ℚ) / (t : ℚ) * 100)
    rw [show roundTo 2 ((m : ℚ) / (t : ℚ) * 100) - (m : ℚ) / (t : ℚ) * 100 +
        (roundTo 2 (((t - m : ℕ) : ℚ) / (t : ℚ) * 100) - ((t - m : ℕ) : ℚ) / (t : ℚ) * 100) =
        roundTo 2 ((m : ℚ) / (t : ℚ) * 100) + roundTo 2 (((t - m : ℕ) : ℚ) / (t : ℚ) * 100) -
          ((m : ℚ) / (t : ℚ) * 100 + ((t - m : ℕ) : ℚ) / (t : ℚ) * 100) by ring] at this
    rw [hsum] at this
    linarith
  · intro h
    subst h
    with_unfolding_all decide

/-- Claim C5 witness: the amended theorem applied to a concrete three-value
column with two missing entries. -/
theorem calculateMissingData_accounting_witness :
    ∃ a b : ℚ,
      (calculateMissingData [.vstr " ", .vnum .nan, .vstr "x"]).missingPercentage = .fin a ∧
      (calculateMissingData [.vstr " ", .vnum .nan, .vstr "x"]).presentPercentage = .fin b ∧
      |a + b - 100| ≤ 1 / 100 :=
  (calculateMissingData_accounting [.vstr " ", .vnum .nan, .vstr "x"]).2.2.2.2.1
    (by exact List.cons_ne_nil _ _)

/-! Claim C3. -/

theorem filter_all_length {α : Type} (p : α → Bool) (l : List α) :
    (l.filter p).length = l.length ↔ ∀ a ∈ l, p a = true :=
  List.filter_length_eq_length

/-- Claim C3: detectColumnType returns boolean exactly when every non-null
value is a native boolean or a case-insensitive member of
{"true","false","yes","no","1","0"} and the preceding all-finite-numeric check
failed; and when a column has a non-null value and all non-null values are
boolean-like yet all also coerce to finite numbers, the numeric rule wins and
the type is integer or float. -/
theorem detectColumnType_boolean_iff (values : List JSVal) :
    (detectColumnType values = .boolean ↔
      ((∀ v ∈ nonNullOf values, isBooleanLike v = true) ∧
        ¬ (∀ v ∈ nonNullOf values, isFiniteCoercible v = true))) ∧
    ((nonNullOf values ≠ [] ∧ (∀ v ∈ nonNullOf values, isBooleanLike v = true) ∧
        (∀ v ∈ nonNullOf values, isFiniteCoercible v = true)) →
      detectColumnType values = .integer ∨ detectColumnType values = .float) := by
  by_cases h0 : nonNullOf values = []
  · rw [detectColumnType]
    simp [h0]
  · have hne : (nonNullOf values).isEmpty = false := by
      simpa [List.isEmpty_iff] using h0
    by_cases hnum :
        ((nonNullOf values).filter isFiniteCoercible).length = (nonNullOf values).length
    · have hall : ∀ v ∈ nonNullOf values, isFiniteCoercible v = true :=
        (filter_all_length _ _).mp hnum
      rw [detectColumnType]
      simp only [hne, Bool.false_eq_true, if_false, hnum, if_true]
      constructor
      · split
        · refine iff_of_false (by simp) ?_
          rintro ⟨-, hn⟩
          exact hn hall
        · refine iff_of_false (by simp) ?_
          rintro ⟨-, hn⟩
          exact hn hall
      · intro _
        split
        · exact Or.inl rfl
        · exact Or.inr rfl
    · have hnall : ¬ ∀ v ∈ nonNullOf values, isFiniteCoercible v = true := by
        intro h
        exact hnum ((filter_all_length _ _).mpr h)
      rw [detectColumnType]
      simp only [hne, Bool.false_eq_true, if_false, hnum, if_true]
      by_cases hbool :
          ((nonNullOf values).filter isBooleanLike).length = (nonNullOf values).length
      · have hallb : ∀ v ∈ nonNullOf values, isBooleanLike v = true :=
          (filter_all_length _ _).mp hbool
        simp only [hbool, if_true]
        constructor
        · exact ⟨fun _ => ⟨hallb, hnall⟩, fun _ => trivial⟩
        · rintro ⟨-, -, hn⟩
          exact absurd hn hnall
      · have hnb : ¬ ∀ v ∈ nonNullOf values, isBooleanLike v = true := by
          intro h
          exact hbool ((filter_all_length _ _).mpr h)
        simp only [hbool, if_false]
        constructor
        · split
          · refine iff_of_false (by simp) ?_
            rintro ⟨hb, -⟩
            exact hnb hb
          · refine iff_of_false (by simp) ?_
            rintro ⟨hb, -⟩
            exact hnb hb
        · rintro ⟨-, -, hn⟩
          exact absurd hn hnall

/-- Claim C3 witness: a column of native booleans is boolean-like and
all-numeric-coercible, so the numeric rule wins (integer). -/
theorem detectColumnType_boolean_iff_witness :
    detectColumnType [JSVal.vbool true] = .integer ∨
      detectColumnType [JSVal.vbool true] = .float :=
  (detectColumnType_boolean_iff [JSVal.vbool true]).2
    (by refine ⟨?_, ?_, ?_⟩ <;> with_unfolding_all decide)

/-! Helper lemmas about first-occurrence deduplication. -/

theorem uniqFirstAux_subset {α : Type} [DecidableEq α] :
    ∀ (l seen : List α) (x : α), x ∈ uniqFirstAux l seen → x ∈ l := by
  intro l
  induction l with
  | nil => intro seen x h; exact absurd h (by simp [uniqFirstAux])
  | cons a as ih =>
    intro seen x h
    rw [uniqFirstAux] at h
    by_cases ha : a ∈ seen
    · simp only [ha, if_true] at h
      exact List.mem_cons_of_mem _ (ih _ _ h)
    · simp only [ha, if_false] at h
      rcases List.mem_cons.mp h with h | h
      · exact h ▸ List.mem_cons_self _ _
      · exact List.mem_cons_of_mem _ (ih _ _ h)

theorem uniqFirstAux_nodup {α : Type} [DecidableEq α] :
    ∀ (l seen : List α),
      (∀ x ∈ uniqFirstAux l seen, x ∉ seen) ∧ (uniqFirstAux l seen).Nodup := by
  intro l
  induction l with
  | nil => intro seen; simp [uniqFirstAux]
  | cons a as ih =>
    intro seen
    rw [uniqFirstAux]
    by_cases ha : a ∈ seen
    · simpa [ha] using ih seen
    · simp only [ha, if_false]
      obtain ⟨hmem, hnd⟩ := ih (a :: seen)
      refine ⟨?_, ?_⟩
      · intro x hx
        rcases List.mem_cons.mp hx with h | h
        · exact h ▸ ha
        · exact fun hs => hmem x h (List.mem_cons_of_mem _ hs)
      · refine List.nodup_cons.mpr ⟨?_, hnd⟩
        intro hax
        exact hmem a hax (List.mem_cons_self _ _)

theorem uniqFirst_nodup {α : Type} [DecidableEq α] (l : List α) : (uniqFirst l).Nodup :=
  (uniqFirstAux_nodup l []).2

theorem uniqFirst_subset {α : Type} [DecidableEq α] (l : List α) : uniqFirst l ⊆ l :=
  fun _ h => uniqFirstAux_subset l [] _ h

/-- Spells out the non-null test. -/
theorem isNonNull_iff (v : JSVal) :
    isNonNull v = true ↔ (v ≠ .vnull ∧ v ≠ .vundefined ∧ v ≠ .vstr "") := by
  cases v with
  | vstr s =>
    constructor
    · intro h
      refine ⟨by simp, by simp, ?_⟩
      intro he
      cases he
      exact absurd h (by simp [isNonNull])
    · rintro ⟨-, -, h⟩
      have : s ≠ "" := fun hs => h (by rw [hs])
      simpa [isNonNull] using this
  | vnull => simp [isNonNull]
  | vundefined => simp [isNonNull]
  | vnum x => simp [isNonNull]
  | vbool b => simp [isNonNull]

/-- Inhabitant used only to state witnesses by total projection. -/
def emptyProfile : DatasetProfile :=
  { filename := "", data := [], columns := [], correlations := [],
    summary := { totalRows := 0, totalColumns := 0, numericColumns := 0,
                 categoricalColumns := 0, dateColumns := 0,
                 missingDataPercentage := .fin 0, duplicateRows := 0 },
    chartSuggestions := [], dataTypes := [],
    qualityAssessment := { issues := [], warnings := [], overallQuality := "" } }

/-- Neutral column profile used only as a getD default in witness statements. -/
def defaultColumn : ColProfile :=
  { name := "", type := .unknown,
    missingData := { total := 0, missing := 0, present := 0,
                     missingPercentage := .fin 0, presentPercentage := .fin 0 },
    stats := .categorical (calculateCategoricalStats []),
    outliers := [], sampleValues := [] }

/-- Decomposes a successful analysis into its assembled parts. -/
theorem analyzeDataset_ok (data : List Row) (filename : String) (p : DatasetProfile)
    (hp : analyzeDataset data filename = .ok p) :
    p.data = data.map (cleanRow ((data.headD []).map fun kv => normalizeName kv.1)) ∧
    p.columns = ((data.headD []).map fun kv => normalizeName kv.1).map
      (buildColumn (data.map (cleanRow ((data.headD []).map fun kv => normalizeName kv.1)))) := by
  cases data with
  | nil => exact absurd hp (by simp [analyzeDataset])
  | cons r rs =>
    rw [analyzeDataset] at hp
    simp only [List.isEmpty_cons, Bool.false_eq_true, if_false] at hp
    cases hp
    exact ⟨rfl, rfl⟩

/-! Claim C9. -/

theorem isNumericType_iff (t : ColType) :
    isNumericType t = true ↔ (t = .integer ∨ t = .float) := by
  cases t <;> simp [isNumericType]

/-- Claim C9: in every column profile assembled by analyzeDataset, the stats
record has the numeric shape exactly when the inferred type is integer or
float; all other types (boolean, date, string, unknown) receive the
categorical shape, and the outliers list is empty for them. -/
theorem analyzeDataset_stats_shape (data : List Row) (filename : String)
    (p : DatasetProfile) (hp : analyzeDataset data filename = .ok p) :
    ∀ col ∈ p.columns,
      ((col.type = .integer ∨ col.type = .float) ↔ ∃ s, col.stats = Stats.numeric s) ∧
      ((col.type = .integer ∨ col.type = .float) ∨ ∃ s, col.stats = Stats.categorical s) ∧
      (¬ (col.type = .integer ∨ col.type = .float) → col.outliers = []) := by
  intro col hcol
  rw [(analyzeDataset_ok data filename p hp).2] at hcol
  obtain ⟨name, -, rfl⟩ := List.mem_map.mp hcol
  set cleanData := data.map (cleanRow ((data.headD []).map fun kv => normalizeName kv.1))
  by_cases hn : isNumericType (detectColumnType (cleanData.map fun row => objGet row name)) = true
  · have ht := (isNumericType_iff _).mp hn
    refine ⟨?_, ?_, ?_⟩
    · refine iff_of_true ht ⟨calculateNumericStats (cleanData.map fun row => objGet row name), ?_⟩
      simp [buildColumn, hn]
    · exact Or.inl ht
    · intro h
      exact absurd ht h
  · have ht : ¬(detectColumnType (cleanData.map fun row => objGet row name) = .integer ∨
        detectColumnType (cleanData.map fun row => objGet row name) = .float) := by
      intro h
      exact hn ((isNumericType_iff _).mpr h)
    refine ⟨?_, ?_, ?_⟩
    · refine iff_of_false ht ?_
      rintro ⟨s, hs⟩
      simp only [buildColumn, Bool.not_eq_true] at hs
      rw [Bool.not_eq_true] at hn
      simp [hn] at hs
    · refine Or.inr
        ⟨calculateCategoricalStats (cleanData.map fun row => objGet row name), ?_⟩
      rw [Bool.not_eq_true] at hn
      simp [buildColumn, hn]
    · intro _h
      rw [Bool.not_eq_true] at hn
      simp [buildColumn, hn]

/-- Claim C9 witness: the theorem applied to the first column of a concrete
two-column dataset (one numeric, one string column). -/
theorem analyzeDataset_stats_shape_witness :
    ((((analyzeDataset [[("a", JSVal.vstr "1"), ("b", JSVal.vstr "x")]]
          "d").toOption.getD emptyProfile).columns.getD 0 defaultColumn).type = .integer ∨
        (((analyzeDataset [[("a", JSVal.vstr "1"), ("b", JSVal.vstr "x")]]
          "d").toOption.getD emptyProfile).columns.getD 0 defaultColumn).type = .float) ↔
      ∃ s, (((analyzeDataset [[("a", JSVal.vstr "1"), ("b", JSVal.vstr "x")]]
          "d").toOption.getD emptyProfile).columns.getD 0 defaultColumn).stats =
        Stats.numeric s :=
  by
  have hp : analyzeDataset [[("a", JSVal.vstr "1"), ("b", JSVal.vstr "x")]] "d" =
      .ok ((analyzeDataset [[("a", JSVal.vstr "1"), ("b", JSVal.vstr "x")]]
        "d").toOption.getD emptyProfile) := by
    with_unfolding_all rfl
  have hlen : 0 < ((analyzeDataset [[("a", JSVal.vstr "1"), ("b", JSVal.vstr "x")]]
        "d").toOption.getD emptyProfile).columns.length := by
    with_unfolding_all decide
  have hmem : (((analyzeDataset [[("a", JSVal.vstr "1"), ("b", JSVal.vstr "x")]]
        "d").toOption.getD emptyProfile).columns.getD 0 defaultColumn) ∈
      ((analyzeDataset [[("a", JSVal.vstr "1"), ("b", JSVal.vstr "x")]]
        "d").toOption.getD emptyProfile).columns := by
    rw [List.getD_eq_getElem _ _ hlen]
    exact List.getElem_mem hlen
  exact (analyzeDataset_stats_shape [[("a", JSVal.vstr "1"), ("b", JSVal.vstr "x")]] "d"
    ((analyzeDataset [[("a", JSVal.vstr "1"), ("b", JSVal.vstr "x")]]
      "d").toOption.getD emptyProfile) hp
    (((analyzeDataset [[("a", JSVal.vstr "1"), ("b", JSVal.vstr "x")]]
      "d").toOption.getD emptyProfile).columns.getD 0 defaultColumn) hmem).1

/-! Claim C10. -/

/-- Claim C10: sampleValues of every column are the first up-to-5 distinct
values filtered only by excluding null, undefined and the exactly-empty
string; consequently an all-whitespace string or a NaN number — which the
missingness analysis counts as missing — still appears among sampleValues, as
the concrete two-row dataset shows. -/
theorem analyzeDataset_sample_values (data : List Row) (filename : String)
    (p : DatasetProfile) (hp : analyzeDataset data filename = .ok p) :
    (∀ col ∈ p.columns,
      col.sampleValues =
        (uniqFirst ((p.data.map fun r => objGet r col.name).filter sampleKeep)).take 5 ∧
      col.sampleValues.length ≤ 5 ∧ col.sampleValues.Nodup ∧
      (∀ v ∈ col.sampleValues, v ≠ .vnull ∧ v ≠ .vundefined ∧ v ≠ .vstr "")) ∧
    (∀ col ∈ ((analyzeDataset [[("a", JSVal.vstr " ")], [("a", JSVal.vnum .nan)]]
        "d").toOption.getD emptyProfile).columns,
      col.sampleValues = [.vstr " ", .vnum .nan] ∧
      col.missingData.missing = 2 ∧ col.missingData.total = 2) := by
  constructor
  · intro col hcol
    obtain ⟨hdata, hcols⟩ := analyzeDataset_ok data filename p hp
    rw [hcols] at hcol
    obtain ⟨name, -, rfl⟩ := List.mem_map.mp hcol
    set cleanData := data.map (cleanRow ((data.headD []).map fun kv => normalizeName kv.1))
      with hcd
    have hname : (buildColumn cleanData name).name = name := rfl
    have hsv : (buildColumn cleanData name).sampleValues =
        (uniqFirst ((cleanData.map fun r => objGet r name).filter sampleKeep)).take 5 := rfl
    refine ⟨?_, ?_, ?_, ?_⟩
    · rw [hsv, hname, hdata]
    · rw [hsv]
      exact List.length_take_le _ _
    · rw [hsv]
      exact List.Nodup.sublist (List.take_sublist _ _) (uniqFirst_nodup _)
    · intro v hv
      rw [hsv] at hv
      have hvu : v ∈ uniqFirst ((cleanData.map fun r => objGet r name).filter sampleKeep) :=
        List.take_subset _ _ hv
      have hvf := uniqFirst_subset _ hvu
      have := List.of_mem_filter hvf
      exact (isNonNull_iff v).mp this
  · with_unfolding_all decide

/-- Claim C10 witness: the per-column part applied to the single column of the
concrete dataset whose only column holds an all-whitespace string and a NaN. -/
theorem analyzeDataset_sample_values_witness :
    (((analyzeDataset [[("a", JSVal.vstr " ")], [("a", JSVal.vnum .nan)]]
        "d").toOption.getD emptyProfile).columns.getD 0 defaultColumn).sampleValues =
      (uniqFirst
        ((((analyzeDataset [[("a", JSVal.vstr " ")], [("a", JSVal.vnum .nan)]]
            "d").toOption.getD emptyProfile).data.map fun r =>
          objGet r (((analyzeDataset [[("a", JSVal.vstr " ")], [("a", JSVal.vnum .nan)]]
            "d").toOption.getD emptyProfile).columns.getD 0 defaultColumn).name).filter
          sampleKeep)).take 5 :=
  by
  have hp : analyzeDataset [[("a", JSVal.vstr " ")], [("a", JSVal.vnum .nan)]] "d" =
      .ok ((analyzeDataset [[("a", JSVal.vstr " ")], [("a", JSVal.vnum .nan)]]
        "d").toOption.getD emptyProfile) := by
    with_unfolding_all rfl
  have hlen : 0 < ((analyzeDataset [[("a", JSVal.vstr " ")], [("a", JSVal.vnum .nan)]]
        "d").toOption.getD emptyProfile).columns.length := by
    with_unfolding_all decide
  have hmem : (((analyzeDataset [[("a", JSVal.vstr " ")], [("a", JSVal.vnum .nan)]]
        "d").toOption.getD emptyProfile).columns.getD 0 defaultColumn) ∈
      ((analyzeDataset [[("a", JSVal.vstr " ")], [("a", JSVal.vnum .nan)]]
        "d").toOption.getD emptyProfile).columns := by
    rw [List.getD_eq_getElem _ _ hlen]
    exact List.getElem_mem hlen
  exact ((analyzeDataset_sample_values
    [[("a", JSVal.vstr " ")], [("a", JSVal.vnum .nan)]] "d"
    ((analyzeDataset [[("a", JSVal.vstr " ")], [("a", JSVal.vnum .nan)]]
      "d").toOption.getD emptyProfile) hp).1
    (((analyzeDataset [[("a", JSVal.vstr " ")], [("a", JSVal.vnum .nan)]]
      "d").toOption.getD emptyProfile).columns.getD 0 defaultColumn) hmem).1

/-! Claim C2. -/

/-- Concrete single numeric column used to exercise the chart recommender. -/
def c2col : ColProfile :=
  { name := "a", type := .integer,
    missingData := { total := 1, missing := 0, present := 1,
                     missingPercentage := .fin 0, presentPercentage := .fin 100 },
    stats := .categorical (calculateCategoricalStats []),
    outliers := [], sampleValues := [] }

/-- The ordering property asserted by the claim: no suggestion with priority
"medium" ever precedes one with priority "high". -/
def highBeforeMedium (l : List Suggestion) : Prop :=
  l.Pairwise fun a b => a.priority = "medium" → b.priority ≠ "high"

/-- Claim C2 counterexample: for a single numeric column the recommender
returns the boxplot (medium) before the histogram (high) — lodash orderBy desc
compares the priority strings lexicographically and "medium" > "high" — so the
claimed high-before-medium order fails. -/
theorem suggestChartTypes_medium_first :
    (suggestChartTypes [c2col]).map (fun s => s.priority) = ["medium", "high"] ∧
    ¬ highBeforeMedium (suggestChartTypes [c2col]) := by
  have hmap : (suggestChartTypes [c2col]).map (fun s => s.priority) = ["medium", "high"] := by
    with_unfolding_all decide
  refine ⟨hmap, ?_⟩
  intro h
  rcases hs : suggestChartTypes [c2col] with _ | ⟨s1, rest1⟩
  · rw [hs] at hmap
    simp at hmap
  · rcases rest1 with _ | ⟨s2, rest2⟩
    · rw [hs] at hmap
      simp at hmap
    · rw [hs] at hmap h
      simp only [List.map_cons, List.cons.injEq] at hmap
      obtain ⟨h1, h2, -⟩ := hmap
      have := (List.pairwise_cons.mp h).1 s2 (List.mem_cons_self _ _)
      exact this h1 h2

theorem orderedInsert_append_of {α : Type} (r : α → α → Prop) [DecidableRel r] (s : α) :
    ∀ (M H : List α), (∀ b ∈ M, ¬ r s b) → (∀ b ∈ H, r s b) →
      List.orderedInsert r s (M ++ H) = M ++ s :: H := by
  intro M
  induction M with
  | nil =>
    intro H _ hH
    cases H with
    | nil => rfl
    | cons h t =>
      simp only [List.nil_append, List.orderedInsert]
      rw [if_pos (hH h (List.mem_cons_self _ _))]
  | cons m M ih =>
    intro H hM hH
    simp only [List.cons_append, List.orderedInsert]
    rw [if_neg (hM m (List.mem_cons_self _ _))]
    simp only [List.append_eq]
    rw [ih H (fun b hb => hM b (List.mem_cons_of_mem _ hb)) hH]

theorem insertionSort_two_priorities :
    ∀ l : List Suggestion, (∀ s ∈ l, s.priority = "high" ∨ s.priority = "medium") →
      List.insertionSort (fun a b => jsStrLt a.priority b.priority = false) l =
        l.filter (fun s => s.priority == "medium") ++
          l.filter (fun s => s.priority == "high") := by
  intro l
  induction l with
  | nil => intro _; rfl
  | cons s t ih =>
    intro hall
    have ht : ∀ x ∈ t, x.priority = "high" ∨ x.priority = "medium" :=
      fun x hx => hall x (List.mem_cons_of_mem _ hx)
    have hmemM : ∀ b ∈ t.filter (fun s => s.priority == "medium"), b.priority = "medium" :=
      fun b hb => by simpa using List.of_mem_filter hb
    have hmemH : ∀ b ∈ t.filter (fun s => s.priority == "high"), b.priority = "high" :=
      fun b hb => by simpa using List.of_mem_filter hb
    rcases hall s (List.mem_cons_self _ _) with hs | hs
    · have hfm : (s :: t).filter (fun s => s.priority == "medium") =
          t.filter (fun s => s.priority == "medium") := by
        rw [List.filter_cons_of_neg]
        simp [hs]
      have hfh : (s :: t).filter (fun s => s.priority == "high") =
          s :: t.filter (fun s => s.priority == "high") := by
        rw [List.filter_cons_of_pos]
        simp [hs]
      rw [List.insertionSort, ih ht, hfm, hfh]
      rw [orderedInsert_append_of _ s _ _ ?_ ?_]
      · intro b hb
        rw [hs, hmemM b hb]
        simp [jsStrLt, charListLt]
      · intro b hb
        rw [hs, hmemH b hb]
        simp [jsStrLt, charListLt]
    · have hfm : (s :: t).filter (fun s => s.priority == "medium") =
          s :: t.filter (fun s => s.priority == "medium") := by
        rw [List.filter_cons_of_pos]
        simp [hs]
      have hfh : (s :: t).filter (fun s => s.priority == "high") =
          t.filter (fun s => s.priority == "high") := by
        rw [List.filter_cons_of_neg]
        simp [hs]
      rw [List.insertionSort, ih ht, hfm, hfh]
      have := orderedInsert_append_of
        (fun a b : Suggestion => jsStrLt a.priority b.priority = false) s
        ([] : List Suggestion)
        (t.filter (fun s => s.priority == "medium") ++ t.filter (fun s => s.priority == "high"))
        (by intro b hb; exact absurd hb (List.not_mem_nil b))
        ?_
      · simpa using this
      · intro b hb
        rcases List.mem_append.mp hb with hb | hb
        · rw [hs, hmemM b hb]
          simp [jsStrLt, charListLt]
        · rw [hs, hmemH b hb]
          simp [jsStrLt, charListLt]

theorem chartRules_priorities (columns : List ColProfile) :
    ∀ s ∈ chartRules columns, s.priority = "high" ∨ s.priority = "medium" := by
  intro s hs
  simp only [chartRules, List.mem_append] at hs
  rcases hs with ((((hs | hs) | hs) | hs) | hs) | hs
  · split at hs
    · simp only [List.mem_cons, List.mem_singleton] at hs
      rcases hs with rfl | rfl | hs
      · exact Or.inl rfl
      · exact Or.inr rfl
      · exact absurd hs (List.not_mem_nil s)
    · exact absurd hs (List.not_mem_nil s)
  all_goals
    split at hs
    · simp only [List.mem_singleton] at hs
      subst hs
      first
        | exact Or.inl rfl
        | exact Or.inr rfl
    · exact absurd hs (List.not_mem_nil s)

/-- Claim C2 (amended): suggestChartTypes orders by the lexicographically
descending priority string — every "medium" suggestion precedes every "high"
suggestion — and the sort is stable, so the output is exactly the medium rules
followed by the high rules, each group in rule-table order. -/
theorem suggestChartTypes_order (columns : List ColProfile) :
    suggestChartTypes columns =
      (chartRules columns).filter (fun s => s.priority == "medium") ++
        (chartRules columns).filter (fun s => s.priority == "high") := by
  rw [suggestChartTypes]
  exact insertionSort_two_priorities (chartRules columns) (chartRules_priorities columns)

/-! Claim C7. -/

theorem numericValuesOf_sorted (values : List JSVal) :
    (numericValuesOf values).Sorted (· ≤ ·) :=
  List.sorted_insertionSort _ _

theorem sorted_getD_mono {l : List ℚ} (hs : l.Sorted (· ≤ ·)) {i j : ℕ}
    (hij : i ≤ j) (hj : j < l.length) : l.getD i 0 ≤ l.getD j 0 := by
  have hi : i < l.length := lt_of_le_of_lt hij hj
  rw [List.getD_eq_getElem l 0 hi, List.getD_eq_getElem l 0 hj]
  rcases eq_or_lt_of_le hij with rfl | hlt
  · exact le_refl _
  · exact List.Sorted.rel_get_of_lt hs (a := ⟨i, hi⟩) (b := ⟨j, hj⟩) hlt

/-- Claim C7: for a non-empty numeric sample the reported statistics satisfy
min ≤ q1 ≤ median ≤ q3 ≤ max, where q1 and q3 are the sorted-sample elements
at the nearest-rank indices floor(n/4) and floor(3n/4) and the median is the
middle element (average of the two middle elements for even n). -/
theorem calculateNumericStats_quartile_order (values : List JSVal)
    (hne : numericValuesOf values ≠ []) :
    ∃ mn q1v med q3v mx : ℚ,
      (calculateNumericStats values).min = .jnum (.fin mn) ∧
      (calculateNumericStats values).q1 = .jnum (.fin q1v) ∧
      (calculateNumericStats values).median = .jnum (.fin med) ∧
      (calculateNumericStats values).q3 = .jnum (.fin q3v) ∧
      (calculateNumericStats values).max = .jnum (.fin mx) ∧
      q1v = (numericValuesOf values).getD ((numericValuesOf values).length / 4) 0 ∧
      q3v = (numericValuesOf values).getD (3 * (numericValuesOf values).length / 4) 0 ∧
      med = medianOf (numericValuesOf values) ∧
      mn ≤ q1v ∧ q1v ≤ med ∧ med ≤ q3v ∧ q3v ≤ mx := by
  have hE : (numericValuesOf values).isEmpty = false := by
    simpa [List.isEmpty_iff] using hne
  set s := numericValuesOf values with hs0
  set n := s.length with hn0
  have hn : 0 < n := List.length_pos.mpr hne
  have hsorted : s.Sorted (· ≤ ·) := numericValuesOf_sorted values
  refine ⟨s.getD 0 0, s.getD (n / 4) 0, medianOf s, s.getD (3 * n / 4) 0,
    s.getD (n - 1) 0, ?_, ?_, ?_, ?_, ?_, rfl, rfl, rfl, ?_, ?_, ?_, ?_⟩
  · simp [calculateNumericStats, hE]
  · simp [calculateNumericStats, hE]
  · simp [calculateNumericStats, hE]
  · simp [calculateNumericStats, hE]
  · simp [calculateNumericStats, hE]
  · exact sorted_getD_mono hsorted (Nat.zero_le _) (by omega)
  · rw [medianOf]
    split
    · have h2 : 2 ≤ n := by omega
      have ha : s.getD (n / 4) 0 ≤ s.getD (n / 2 - 1) 0 :=
        sorted_getD_mono hsorted (by omega) (by omega)
      have hb : s.getD (n / 2 - 1) 0 ≤ s.getD (n / 2) 0 :=
        sorted_getD_mono hsorted (by omega) (by omega)
      linarith
    · exact sorted_getD_mono hsorted (by omega) (by omega)
  · rw [medianOf]
    split
    · have hb : s.getD (n / 2 - 1) 0 ≤ s.getD (n / 2) 0 :=
        sorted_getD_mono hsorted (by omega) (by omega)
      have hc : s.getD (n / 2) 0 ≤ s.getD (3 * n / 4) 0 :=
        sorted_getD_mono hsorted (by omega) (by omega)
      linarith
    · exact sorted_getD_mono hsorted (by omega) (by omega)
  · exact sorted_getD_mono hsorted (by omega) (by omega)

/-- Claim C7 witness: the quartile ordering at a concrete four-value sample. -/
theorem calculateNumericStats_quartile_order_witness :
    ∃ mn q1v med q3v mx : ℚ,
      (calculateNumericStats
          [.vstr "4", .vstr "1", .vstr "3", .vstr "2"]).min = .jnum (.fin mn) ∧
      (calculateNumericStats
          [.vstr "4", .vstr "1", .vstr "3", .vstr "2"]).q1 = .jnum (.fin q1v) ∧
      (calculateNumericStats
          [.vstr "4", .vstr "1", .vstr "3", .vstr "2"]).median = .jnum (.fin med) ∧
      (calculateNumericStats
          [.vstr "4", .vstr "1", .vstr "3", .vstr "2"]).q3 = .jnum (.fin q3v) ∧
      (calculateNumericStats
          [.vstr "4", .vstr "1", .vstr "3", .vstr "2"]).max = .jnum (.fin mx) ∧
      q1v = (numericValuesOf [.vstr "4", .vstr "1", .vstr "3", .vstr "2"]).getD
        ((numericValuesOf [.vstr "4", .vstr "1", .vstr "3", .vstr "2"]).length / 4) 0 ∧
      q3v = (numericValuesOf [.vstr "4", .vstr "1", .vstr "3", .vstr "2"]).getD
        (3 * (numericValuesOf [.vstr "4", .vstr "1", .vstr "3", .vstr "2"]).length / 4) 0 ∧
      med = medianOf (numericValuesOf [.vstr "4", .vstr "1", .vstr "3", .vstr "2"]) ∧
      mn ≤ q1v ∧ q1v ≤ med ∧ med ≤ q3v ∧ q3v ≤ mx :=
  calculateNumericStats_quartile_order [.vstr "4", .vstr "1", .vstr "3", .vstr "2"]
    (by with_unfolding_all decide)

/-! Helper lemmas about the integer and rational square root. -/

theorem isqrtBin_ge_lo : ∀ (fuel n lo hi : ℕ), lo ≤ isqrtBin fuel n lo hi := by
  intro fuel
  induction fuel with
  | zero => intro n lo hi; exact le_refl lo
  | succ f ih =>
    intro n lo hi
    rw [isqrtBin]
    split
    · exact le_refl lo
    · split
      · exact le_trans (by omega) (ih n ((lo + hi + 1) / 2) hi)
      · exact ih n lo ((lo + hi + 1) / 2 - 1)

theorem isqrtBin_sq_le : ∀ (fuel n lo hi : ℕ), lo * lo ≤ n →
    isqrtBin fuel n lo hi * isqrtBin fuel n lo hi ≤ n := by
  intro fuel
  induction fuel with
  | zero => intro n lo hi h; exact h
  | succ f ih =>
    intro n lo hi h
    rw [isqrtBin]
    split
    · exact h
    · split
      · exact ih n _ hi (by assumption)
      · exact ih n lo _ h

theorem le_isqrtBin : ∀ (fuel n lo hi j : ℕ), hi - lo ≤ fuel → lo ≤ j → j ≤ hi →
    j * j ≤ n → j ≤ isqrtBin fuel n lo hi := by
  intro fuel
  induction fuel with
  | zero =>
    intro n lo hi j hfuel hlo hhi _
    rw [isqrtBin]
    omega
  | succ f ih =>
    intro n lo hi j hfuel hlo hhi hjj
    rw [isqrtBin]
    split
    · omega
    · rename_i hlohi
      have hmid1 : lo + 1 ≤ (lo + hi + 1) / 2 := by omega
      have hmid2 : (lo + hi + 1) / 2 ≤ hi := by omega
      split
      · rename_i hmidsq
        rcases Nat.lt_or_ge j ((lo + hi + 1) / 2) with hj | hj
        · have hres := isqrtBin_ge_lo f n ((lo + hi + 1) / 2) hi
          omega
        · exact ih n _ hi j (by omega) hj hhi hjj
      · rename_i hmidsq
        have hjmid : j < (lo + hi + 1) / 2 := by
          by_contra hc
          push_neg at hc
          exact hmidsq (le_trans (Nat.mul_le_mul hc hc) hjj)
        exact ih n lo _ j (by omega) hlo (by omega) hjj

theorem isqrt_sq_le (n : ℕ) : isqrt n * isqrt n ≤ n :=
  isqrtBin_sq_le (n + 1) n 0 n (by omega)

theorem le_isqrt (n j : ℕ) (hj : j ≤ n) (hjj : j * j ≤ n) : j ≤ isqrt n :=
  le_isqrtBin (n + 1) n 0 n j (by omega) (Nat.zero_le j) hj hjj

theorem isqrt_mul_self (k : ℕ) : isqrt (k * k) = k := by
  rcases Nat.eq_zero_or_pos k with rfl | hp
  · rfl
  · have hk : k ≤ k * k := Nat.le_mul_of_pos_left k hp
    have h1 : k ≤ isqrt (k * k) := le_isqrt (k * k) k hk le_rfl
    have h2 : isqrt (k * k) ≤ k := by
      by_contra hcon
      push_neg at hcon
      have hsq := isqrt_sq_le (k * k)
      have hlt := Nat.mul_self_lt_mul_self hcon
      exact absurd (lt_of_lt_of_le hlt hsq) (lt_irrefl _)
    exact le_antisymm h2 h1

theorem isqrt_pos (n : ℕ) (h : 1 ≤ n) : 1 ≤ isqrt n :=
  le_isqrt n 1 h (by omega)

theorem ratSqrt_nonneg (q : ℚ) : 0 ≤ ratSqrt q := by
  rw [ratSqrt]
  split
  · exact le_refl 0
  · split
    · positivity
    · norm_num

theorem ratSqrt_pos (q : ℚ) (h : 0 < q) : 0 < ratSqrt q := by
  rw [ratSqrt]
  rw [if_neg (by exact not_le.mpr h)]
  split
  · have hnum : 1 ≤ q.num.toNat := by
      have := (Rat.num_pos (a := q)).mpr h
      omega
    have ha : (1 : ℕ) ≤ isqrt q.num.toNat := isqrt_pos _ hnum
    have hb : (1 : ℕ) ≤ isqrt q.den := isqrt_pos _ q.den_pos
    have ha2 : (0 : ℚ) < (isqrt q.num.toNat : ℚ) := by exact_mod_cast ha
    have hb2 : (0 : ℚ) < (isqrt q.den : ℚ) := by exact_mod_cast hb
    positivity
  · norm_num

theorem ratSqrt_eq_zero_imp (q : ℚ) (h : ratSqrt q = 0) : q ≤ 0 := by
  by_contra hcon
  push_neg at hcon
  exact absurd h (ne_of_gt (ratSqrt_pos q hcon))

theorem ratSqrt_mul_self (q : ℚ) (h : 0 ≤ q) : ratSqrt (q * q) = q := by
  rcases eq_or_lt_of_le h with rfl | hpos
  · simp [ratSqrt]
  · have hqq : 0 < q * q := by positivity
    rw [ratSqrt, if_neg (not_le.mpr hqq)]
    have hnum : (q * q).num = q.num * q.num := Rat.mul_self_num q
    have hden : (q * q).den = q.den * q.den := Rat.mul_self_den q
    have hnn : 0 ≤ q.num := Rat.num_nonneg.mpr h
    set k := q.num.toNat with hk
    have hknat : (k : ℤ) = q.num := Int.toNat_of_nonneg hnn
    have htonat : (q * q).num.toNat = k * k := by
      rw [hnum, ← hknat, ← Nat.cast_mul, Int.toNat_natCast]
    have hcheck : isqrt ((q * q).num.toNat) = k := by rw [htonat, isqrt_mul_self]
    have hcheckd : isqrt ((q * q).den) = q.den := by rw [hden, isqrt_mul_self]
    rw [if_pos ?_]
    · rw [hcheck, hcheckd]
      have hkq : ((k : ℚ)) = ((q.num : ℚ)) := by exact_mod_cast hknat
      rw [hkq]
      exact Rat.num_div_den q
    · constructor
      · rw [hcheck, htonat]
      · rw [hcheckd, hden]

/-! Helper lemmas about NaN propagation through sums. -/

theorem foldl_jadd_nan : ∀ l : List JNum, l.foldl jadd .nan = .nan := by
  intro l
  induction l with
  | nil => rfl
  | cons a t ih =>
    have hna : jadd .nan a = .nan := by cases a <;> rfl
    simpa [List.foldl_cons, hna] using ih

theorem jsum_all_nan (l : List JNum) (hne : l ≠ []) (h : ∀ x ∈ l, x = .nan) :
    jsum l = .nan := by
  cases l with
  | nil => exact absurd rfl hne
  | cons a t =>
    have ha : a = .nan := h a (List.mem_cons_self _ _)
    rw [jsum, List.foldl_cons, ha]
    have : jadd (.fin 0) .nan = .nan := rfl
    rw [this]
    exact foldl_jadd_nan t

theorem jsum_fins : ∀ (l : List JNum), (∀ x ∈ l, ∃ q : ℚ, x = .fin q) →
    ∃ r : ℚ, jsum l = .fin r := by
  have haux : ∀ (l : List JNum) (a : ℚ), (∀ x ∈ l, ∃ q : ℚ, x = .fin q) →
      ∃ r : ℚ, l.foldl jadd (.fin a) = .fin r := by
    intro l
    induction l with
    | nil => intro a _; exact ⟨a, rfl⟩
    | cons x t ih =>
      intro a hall
      obtain ⟨q, rfl⟩ := hall x (List.mem_cons_self _ _)
      rw [List.foldl_cons]
      exact ih (a + q) fun y hy => hall y (List.mem_cons_of_mem _ hy)
  intro l h
  exact haux l 0 h

theorem jpow_fin (a : ℚ) (k : ℕ) : jpow (.fin a) k = .fin (a ^ k) := by
  induction k with
  | zero => simp [jpow]
  | succ k ih => rw [jpow, ih, jmul_fin_fin, pow_succ]

theorem jpow_nan (k : ℕ) (h : 0 < k) : jpow .nan k = .nan := by
  cases k with
  | zero => omega
  | succ k =>
    rw [jpow]
    cases jpow JNum.nan k <;> rfl

/-! Field checkers and core lemmas for the NaN-freedom analysis. -/

/-- A stats field is acceptable for the JSON contract: null or a finite number. -/
def fieldOk : JField → Bool
  | .jnull => true
  | .jnum (.fin _) => true
  | .jnum .nan => false
  | .jnum (.inf _) => false

/-- All numeric-stats fields are finite-or-null. -/
def statsFieldsOk (s : NumericStats) : Bool :=
  fieldOk s.mean && fieldOk s.median && fieldOk s.std && fieldOk s.min && fieldOk s.max &&
    fieldOk s.q1 && fieldOk s.q3 && fieldOk s.variance && fieldOk s.skewness &&
    fieldOk s.kurtosis

/-- All numeric-stats fields except variance and std are finite-or-null. -/
def statsFieldsOkExceptSpread (s : NumericStats) : Bool :=
  fieldOk s.mean && fieldOk s.median && fieldOk s.min && fieldOk s.max &&
    fieldOk s.q1 && fieldOk s.q3 && fieldOk s.skewness && fieldOk s.kurtosis

/-- All categorical-stats numeric fields (the top-value percentages) are finite. -/
def catStatsFieldsOk (cs : CatStats) : Bool :=
  cs.topValues.all fun tv =>
    match tv.percentage with
    | .fin _ => true
    | _ => false

/-- Either shape passes its field check. -/
def colStatsOk : Stats → Bool
  | .numeric s => statsFieldsOk s
  | .categorical s => catStatsFieldsOk s

theorem meanOf_single (v : ℚ) : meanOf [v] = v := by
  simp [meanOf]

theorem sqDevSum_single (v : ℚ) : sqDevSum [v] = 0 := by
  simp [sqDevSum, meanOf_single]

theorem sqDevSum_nonneg (nv : List ℚ) : 0 ≤ sqDevSum nv := by
  apply List.sum_nonneg
  intro x hx
  obtain ⟨v, -, rfl⟩ := List.mem_map.mp hx
  positivity

theorem varianceOf_fin (nv : List ℚ) (h : 2 ≤ nv.length) :
    varianceOf nv = .fin (sqDevSum nv / ((nv.length : ℚ) - 1)) := by
  have h2 : (2 : ℚ) ≤ (nv.length : ℚ) := by exact_mod_cast h
  exact jdiv_fin_fin _ _ (by linarith)

theorem varianceOf_val_nonneg (nv : List ℚ) (h : 2 ≤ nv.length) :
    0 ≤ sqDevSum nv / ((nv.length : ℚ) - 1) := by
  have h2 : (2 : ℚ) ≤ (nv.length : ℚ) := by exact_mod_cast h
  exact div_nonneg (sqDevSum_nonneg nv) (by linarith)

theorem varianceOf_single_nan (nv : List ℚ) (h : nv.length = 1) : varianceOf nv = .nan := by
  obtain ⟨v, rfl⟩ : ∃ v, nv = [v] := by
    cases nv with
    | nil => simp at h
    | cons a t =>
      cases t with
      | nil => exact ⟨a, rfl⟩
      | cons b u => simp at h
  rw [varianceOf, sqDevSum_single]
  norm_num [jdiv]

theorem stdRawOf_fin (nv : List ℚ) (h : 2 ≤ nv.length) :
    stdRawOf nv = .fin (ratSqrt (sqDevSum nv / ((nv.length : ℚ) - 1))) := by
  rw [stdRawOf, varianceOf_fin nv h, jsqrt]
  rw [if_neg (not_lt.mpr (varianceOf_val_nonneg nv h))]

theorem stdRawOf_single_nan (nv : List ℚ) (h : nv.length = 1) : stdRawOf nv = .nan := by
  rw [stdRawOf, varianceOf_single_nan nv h]
  rfl

theorem list_map_sum_zero (l : List ℚ) (f : ℚ → ℚ) (hf : ∀ x, 0 ≤ f x)
    (h : (l.map f).sum = 0) : ∀ x ∈ l, f x = 0 := by
  induction l with
  | nil => intro x hx; exact absurd hx (List.not_mem_nil x)
  | cons a t ih =>
    rw [List.map_cons, List.sum_cons] at h
    have hrest : 0 ≤ (t.map f).sum := by
      apply List.sum_nonneg
      intro x hx
      obtain ⟨v, -, rfl⟩ := List.mem_map.mp hx
      exact hf v
    have ha : f a = 0 := by have := hf a; linarith
    have ht : (t.map f).sum = 0 := by linarith
    intro x hx
    rcases List.mem_cons.mp hx with rfl | hx
    · exact ha
    · exact ih ht x hx

/-- A zero unrounded standard deviation forces a constant sample. -/
theorem stdRawOf_zero_const (nv : List ℚ) (h : 2 ≤ nv.length)
    (hz : ratSqrt (sqDevSum nv / ((nv.length : ℚ) - 1)) = 0) :
    ∀ v ∈ nv, v = meanOf nv := by
  have hvle := ratSqrt_eq_zero_imp _ hz
  have hvge := varianceOf_val_nonneg nv h
  have hveq : sqDevSum nv / ((nv.length : ℚ) - 1) = 0 := le_antisymm hvle hvge
  have h2 : (2 : ℚ) ≤ (nv.length : ℚ) := by exact_mod_cast h
  have hS : sqDevSum nv = 0 := by
    have hne : ((nv.length : ℚ) - 1) ≠ 0 := by linarith
    field_simp at hveq
    exact hveq
  have := list_map_sum_zero nv (fun v => (v - meanOf nv) ^ 2) (fun x => by positivity) hS
  intro v hv
  have := this v hv
  have hsq : (v - meanOf nv) ^ 2 = 0 := this
  have := pow_eq_zero_iff (n := 2) (by norm_num) |>.mp hsq
  linarith [sub_eq_zero.mp this]

theorem jadd_nan_left (x : JNum) : jadd .nan x = .nan := by cases x <;> rfl

theorem jsub_nan_left (x : JNum) : jsub .nan x = .nan := by
  rw [jsub]
  exact jadd_nan_left _

theorem jdiv_nan_left (x : JNum) : jdiv .nan x = .nan := by cases x <;> rfl

/-- Shape of the unrounded skewness for count > 2: NaN (constant sample) or finite. -/
theorem skewRawOf_shape (nv : List ℚ) (h : 2 < nv.length) :
    skewRawOf nv = .jnum .nan ∨ ∃ q : ℚ, skewRawOf nv = .jnum (.fin q) := by
  have h2 : 2 ≤ nv.length := by omega
  have hnz : ((nv.length : ℚ)) ≠ 0 := by
    have : (0 : ℚ) < (nv.length : ℚ) := by exact_mod_cast Nat.lt_of_lt_of_le (by omega) h2
    linarith
  have hne : nv ≠ [] := by
    intro hc
    rw [hc] at h
    simp at h
  rw [skewRawOf, if_pos h]
  rw [stdRawOf_fin nv h2]
  by_cases hz : ratSqrt (sqDevSum nv / ((nv.length : ℚ) - 1)) = 0
  · left
    have hconst := stdRawOf_zero_const nv h2 hz
    have hterms : ∀ x ∈ nv.map fun v =>
        jpow (jdiv (.fin (v - meanOf nv)) (.fin (ratSqrt (sqDevSum nv / ((nv.length : ℚ) - 1))))) 3,
        x = JNum.nan := by
      intro x hx
      obtain ⟨v, hv, rfl⟩ := List.mem_map.mp hx
      rw [hconst v hv, hz]
      norm_num [jdiv]
      exact jpow_nan 3 (by norm_num)
    rw [jsum_all_nan _ (by simpa using hne) hterms, jdiv_nan_left]
  · right
    have hterms : ∀ x ∈ nv.map fun v =>
        jpow (jdiv (.fin (v - meanOf nv)) (.fin (ratSqrt (sqDevSum nv / ((nv.length : ℚ) - 1))))) 3,
        ∃ q : ℚ, x = .fin q := by
      intro x hx
      obtain ⟨v, -, rfl⟩ := List.mem_map.mp hx
      rw [jdiv_fin_fin _ _ hz, jpow_fin]
      exact ⟨_, rfl⟩
    obtain ⟨r, hr⟩ := jsum_fins _ hterms
    rw [hr, jdiv_fin_fin _ _ hnz]
    exact ⟨_, rfl⟩

/-- Shape of the unrounded kurtosis for count > 3: NaN (constant sample) or finite. -/
theorem kurtRawOf_shape (nv : List ℚ) (h : 3 < nv.length) :
    kurtRawOf nv = .jnum .nan ∨ ∃ q : ℚ, kurtRawOf nv = .jnum (.fin q) := by
  have h2 : 2 ≤ nv.length := by omega
  have hnz : ((nv.length : ℚ)) ≠ 0 := by
    have : (0 : ℚ) < (nv.length : ℚ) := by
      exact_mod_cast Nat.lt_of_lt_of_le (by omega) h2
    linarith
  have hne : nv ≠ [] := by
    intro hc
    rw [hc] at h
    simp at h
  rw [kurtRawOf, if_pos h]
  rw [stdRawOf_fin nv h2]
  by_cases hz : ratSqrt (sqDevSum nv / ((nv.length : ℚ) - 1)) = 0
  · left
    have hconst := stdRawOf_zero_const nv h2 hz
    have hterms : ∀ x ∈ nv.map fun v =>
        jpow (jdiv (.fin (v - meanOf nv)) (.fin (ratSqrt (sqDevSum nv / ((nv.length : ℚ) - 1))))) 4,
        x = JNum.nan := by
      intro x hx
      obtain ⟨v, hv, rfl⟩ := List.mem_map.mp hx
      rw [hconst v hv, hz]
      norm_num [jdiv]
      exact jpow_nan 4 (by norm_num)
    rw [jsum_all_nan _ (by simpa using hne) hterms, jdiv_nan_left, jsub_nan_left]
  · right
    have hterms : ∀ x ∈ nv.map fun v =>
        jpow (jdiv (.fin (v - meanOf nv)) (.fin (ratSqrt (sqDevSum nv / ((nv.length : ℚ) - 1))))) 4,
        ∃ q : ℚ, x = .fin q := by
      intro x hx
      obtain ⟨v, -, rfl⟩ := List.mem_map.mp hx
      rw [jdiv_fin_fin _ _ hz, jpow_fin]
      exact ⟨_, rfl⟩
    obtain ⟨r, hr⟩ := jsum_fins _ hterms
    rw [hr, jdiv_fin_fin _ _ hnz]
    exact ⟨_, by rw [jsub, jneg, jadd]⟩

theorem jfalsyRound4_ok (f : JField)
    (hf : f = .jnull ∨ f = .jnum .nan ∨ ∃ q : ℚ, f = .jnum (.fin q)) :
    fieldOk (jfalsyRound4 f) = true := by
  rcases hf with rfl | rfl | ⟨q, rfl⟩
  · rfl
  · rfl
  · rw [jfalsyRound4]
    by_cases hq : q = 0
    · rw [hq]
      rfl
    · have : jsTruthy (.fin q) = true := by simpa [jsTruthy] using hq
      rw [if_pos this]
      rfl

theorem skewRawOf_ok (nv : List ℚ) :
    skewRawOf nv = .jnull ∨ skewRawOf nv = .jnum .nan ∨
      ∃ q : ℚ, skewRawOf nv = .jnum (.fin q) := by
  by_cases h : 2 < nv.length
  · rcases skewRawOf_shape nv h with h | h
    · exact Or.inr (Or.inl h)
    · exact Or.inr (Or.inr h)
  · left
    rw [skewRawOf, if_neg h]

theorem kurtRawOf_ok (nv : List ℚ) :
    kurtRawOf nv = .jnull ∨ kurtRawOf nv = .jnum .nan ∨
      ∃ q : ℚ, kurtRawOf nv = .jnum (.fin q) := by
  by_cases h : 3 < nv.length
  · rcases kurtRawOf_shape nv h with h | h
    · exact Or.inr (Or.inl h)
    · exact Or.inr (Or.inr h)
  · left
    rw [kurtRawOf, if_neg h]

theorem calculateNumericStats_fields (values : List JSVal) (h : numericValuesOf values ≠ []) :
    calculateNumericStats values =
      { count := (numericValuesOf values).length
        mean := .jnum (.fin (roundTo 4 (meanOf (numericValuesOf values))))
        median := .jnum (.fin (medianOf (numericValuesOf values)))
        std := .jnum (roundToJ 4 (stdRawOf (numericValuesOf values)))
        min := .jnum (.fin ((numericValuesOf values).getD 0 0))
        max := .jnum (.fin ((numericValuesOf values).getD ((numericValuesOf values).length - 1) 0))
        q1 := .jnum (.fin ((numericValuesOf values).getD ((numericValuesOf values).length / 4) 0))
        q3 := .jnum (.fin ((numericValuesOf values).getD
          (3 * (numericValuesOf values).length / 4) 0))
        variance := .jnum (roundToJ 4 (varianceOf (numericValuesOf values)))
        skewness := jfalsyRound4 (skewRawOf (numericValuesOf values))
        kurtosis := jfalsyRound4 (kurtRawOf (numericValuesOf values)) } := by
  have hE : (numericValuesOf values).isEmpty = false := by
    simpa [List.isEmpty_iff] using h
  rw [calculateNumericStats]
  simp only [hE, Bool.false_eq_true, if_false]

theorem calculateNumericStats_count (values : List JSVal) :
    (calculateNumericStats values).count = (numericValuesOf values).length := by
  by_cases hE : numericValuesOf values = []
  · rw [calculateNumericStats]
    have h : (numericValuesOf values).isEmpty = true := by simpa [List.isEmpty_iff] using hE
    rw [if_pos h, hE]
    rfl
  · rw [calculateNumericStats_fields values hE]

theorem numericStats_ok (values : List JSVal) (h : (numericValuesOf values).length ≠ 1) :
    statsFieldsOk (calculateNumericStats values) = true := by
  by_cases hE : numericValuesOf values = []
  · rw [calculateNumericStats]
    have hEt : (numericValuesOf values).isEmpty = true := by simpa [List.isEmpty_iff] using hE
    rw [if_pos hEt]
    rfl
  · have h2 : 2 ≤ (numericValuesOf values).length := by
      have := List.length_pos.mpr hE
      omega
    rw [calculateNumericStats_fields values hE, statsFieldsOk]
    simp only [varianceOf_fin _ h2, stdRawOf_fin _ h2, roundToJ_fin,
      jfalsyRound4_ok _ (skewRawOf_ok _), jfalsyRound4_ok _ (kurtRawOf_ok _)]
    rfl

theorem numericStats_single (values : List JSVal) (h : (numericValuesOf values).length = 1) :
    (calculateNumericStats values).variance = .jnum .nan ∧
    (calculateNumericStats values).std = .jnum .nan ∧
    statsFieldsOkExceptSpread (calculateNumericStats values) = true := by
  have hne : numericValuesOf values ≠ [] := by
    intro hc
    rw [hc] at h
    simp at h
  have hskew : skewRawOf (numericValuesOf values) = .jnull := by
    rw [skewRawOf, if_neg (by omega)]
  have hkurt : kurtRawOf (numericValuesOf values) = .jnull := by
    rw [kurtRawOf, if_neg (by omega)]
  rw [calculateNumericStats_fields values hne]
  refine ⟨?_, ?_, ?_⟩
  · rw [show (varianceOf (numericValuesOf values)) = .nan from varianceOf_single_nan _ h]
    rfl
  · rw [show (stdRawOf (numericValuesOf values)) = .nan from stdRawOf_single_nan _ h]
    rfl
  · rw [statsFieldsOkExceptSpread]
    simp only [hskew, hkurt]
    rfl

theorem catStats_ok (values : List JSVal) :
    catStatsFieldsOk (calculateCategoricalStats values) = true := by
  by_cases hN : nonNullOf values = []
  · rw [calculateCategoricalStats]
    simp only [hN]
    rfl
  · have htc : (((nonNullOf values).length : ℚ)) ≠ 0 := by
      have := List.length_pos.mpr hN
      positivity
    rw [calculateCategoricalStats, catStatsFieldsOk]
    rw [List.all_eq_true]
    intro tv htv
    simp only [List.mem_map] at htv
    obtain ⟨p, -, rfl⟩ := htv
    simp only [jdiv_fin_fin _ _ htc, jmul_fin_fin, roundToJ_fin]

/-! Claim C1. -/

/-- Claim C1 counterexample: a dataset with one row and one numeric column is
profiled with variance and std equal to NaN (0/0 with the Bessel divisor
count − 1 = 0), not null, so the finite-or-null invariant fails. -/
theorem analyzeDataset_single_value_nan :
    (analyzeDataset [[("a", JSVal.vnum (.fin 5))]] "d").isOk = true ∧
    ((analyzeDataset [[("a", JSVal.vnum (.fin 5))]] "d").toOption.getD emptyProfile).columns.all
        (fun col => colStatsOk col.stats) = false ∧
    ((analyzeDataset [[("a", JSVal.vnum (.fin 5))]] "d").toOption.getD emptyProfile).columns.map
        (fun col => col.stats) =
      [Stats.numeric (calculateNumericStats [JSVal.vnum (.fin 5)])] ∧
    (calculateNumericStats [JSVal.vnum (.fin 5)]).variance = .jnum .nan ∧
    (calculateNumericStats [JSVal.vnum (.fin 5)]).std = .jnum .nan := by
  with_unfolding_all decide

/-- Claim C1 (amended): in every profile returned by analyzeDataset, every
numeric field of every column's stats record is finite or null — except that a
numeric column whose filtered sample has exactly one value reports variance
and std as NaN (0/0 under the Bessel divisor); all remaining fields of such a
column are still finite or null, and categorical stats are always finite. -/
theorem analyzeDataset_stats_finite_or_null (data : List Row) (filename : String)
    (p : DatasetProfile) (hp : analyzeDataset data filename = .ok p) :
    ∀ col ∈ p.columns,
      (∀ cs, col.stats = Stats.categorical cs → catStatsFieldsOk cs = true) ∧
      (∀ ns, col.stats = Stats.numeric ns →
        (ns.count ≠ 1 → statsFieldsOk ns = true) ∧
        (ns.count = 1 → ns.variance = .jnum .nan ∧ ns.std = .jnum .nan ∧
          statsFieldsOkExceptSpread ns = true)) := by
  intro col hcol
  rw [(analyzeDataset_ok data filename p hp).2] at hcol
  obtain ⟨name, -, rfl⟩ := List.mem_map.mp hcol
  set cleanData := data.map (cleanRow ((data.headD []).map fun kv => normalizeName kv.1))
  set values := cleanData.map fun row => objGet row name with hvals
  by_cases hn : isNumericType (detectColumnType values) = true
  · have hstats : (buildColumn cleanData name).stats =
        Stats.numeric (calculateNumericStats values) := by
      simp [buildColumn, hn, hvals]
    constructor
    · intro cs hcs
      rw [hstats] at hcs
      exact absurd hcs (by simp)
    · intro ns hns
      rw [hstats] at hns
      have hns2 : ns = calculateNumericStats values := by
        injection hns.symm
      subst hns2
      rw [calculateNumericStats_count]
      exact ⟨fun hc => numericStats_ok values hc, fun hc => numericStats_single values hc⟩
  · have hstats : (buildColumn cleanData name).stats =
        Stats.categorical (calculateCategoricalStats values) := by
      rw [Bool.not_eq_true] at hn
      simp [buildColumn, hn, hvals]
    constructor
    · intro cs hcs
      rw [hstats] at hcs
      have hcs2 : cs = calculateCategoricalStats values := by
        injection hcs.symm
      subst hcs2
      exact catStats_ok values
    · intro ns hns
      rw [hstats] at hns
      exact absurd hns (by simp)

/-- Claim C1 witness: the amended theorem applied to a concrete two-row
dataset; the single numeric column has a two-value sample, so all stats fields
are finite or null. -/
theorem analyzeDataset_stats_finite_or_null_witness :
    statsFieldsOk (calculateNumericStats
      ((((analyzeDataset [[("a", JSVal.vnum (.fin 1))], [("a", JSVal.vnum (.fin 2))]]
          "d").toOption.getD emptyProfile).data).map fun row => objGet row "a")) = true :=
  ((analyzeDataset_stats_finite_or_null
      [[("a", JSVal.vnum (.fin 1))], [("a", JSVal.vnum (.fin 2))]] "d"
      ((analyzeDataset [[("a", JSVal.vnum (.fin 1))], [("a", JSVal.vnum (.fin 2))]]
        "d").toOption.getD emptyProfile)
      (by with_unfolding_all rfl)
      (((analyzeDataset [[("a", JSVal.vnum (.fin 1))], [("a", JSVal.vnum (.fin 2))]]
        "d").toOption.getD emptyProfile).columns.getD 0 defaultColumn)
      (by with_unfolding_all decide)).2
    (calculateNumericStats
      ((((analyzeDataset [[("a", JSVal.vnum (.fin 1))], [("a", JSVal.vnum (.fin 2))]]
          "d").toOption.getD emptyProfile).data).map fun row => objGet row "a"))
    (by with_unfolding_all rfl)).1
    (by with_unfolding_all decide)

/-! Claim C8. -/

theorem skewRawOf_jnum_imp (nv : List ℚ) (x : JNum) (h : skewRawOf nv = .jnum x) :
    2 < nv.length := by
  by_contra hc
  rw [skewRawOf, if_neg hc] at h
  exact JField.noConfusion h

theorem kurtRawOf_jnum_imp (nv : List ℚ) (x : JNum) (h : kurtRawOf nv = .jnum x) :
    3 < nv.length := by
  by_contra hc
  rw [kurtRawOf, if_neg hc] at h
  exact JField.noConfusion h

/-- Claim C8 counterexample: the two-value sample {0, 0.0625} has the computed
(averaged) median 0.03125 reported unrounded, although rounding it to 4
decimal places would give 0.0313 — so not every other floating result is
rounded to 4 decimals. -/
theorem calculateNumericStats_median_unrounded :
    (calculateNumericStats [.vnum (.fin 0), .vnum (.fin (1 / 16))]).median =
      .jnum (.fin (1 / 32)) ∧
    roundTo 4 (1 / 32) = 313 / 10000 ∧ roundTo 4 (1 / 32) ≠ (1 / 32 : ℚ) := by
  have hr : roundTo 4 (1 / 32) = 313 / 10000 := by
    rw [roundTo]
    norm_num [round_eq]
  refine ⟨?_, hr, ?_⟩
  · with_unfolding_all decide
  · rw [hr]
    norm_num

/-- Claim C8 (amended): skewness is null whenever count ≤ 2 and kurtosis is
null whenever count ≤ 3; a computed skewness or kurtosis that is exactly 0 is
suppressed to null by the falsy check; mean, variance, std and the surviving
skewness/kurtosis are rounded to 4 decimal places, while the median (like min,
max, q1, q3) is reported unrounded. -/
theorem calculateNumericStats_moment_rounding (values : List JSVal) :
    ((numericValuesOf values).length ≤ 2 →
      (calculateNumericStats values).skewness = .jnull) ∧
    ((numericValuesOf values).length ≤ 3 →
      (calculateNumericStats values).kurtosis = .jnull) ∧
    (skewRawOf (numericValuesOf values) = .jnum (.fin 0) →
      (calculateNumericStats values).skewness = .jnull) ∧
    (kurtRawOf (numericValuesOf values) = .jnum (.fin 0) →
      (calculateNumericStats values).kurtosis = .jnull) ∧
    (numericValuesOf values ≠ [] →
      (calculateNumericStats values).mean =
        .jnum (.fin (roundTo 4 (meanOf (numericValuesOf values)))) ∧
      (calculateNumericStats values).variance =
        .jnum (roundToJ 4 (varianceOf (numericValuesOf values))) ∧
      (calculateNumericStats values).std =
        .jnum (roundToJ 4 (stdRawOf (numericValuesOf values))) ∧
      (calculateNumericStats values).median =
        .jnum (.fin (medianOf (numericValuesOf values)))) ∧
    (∀ q : ℚ, q ≠ 0 → skewRawOf (numericValuesOf values) = .jnum (.fin q) →
      (calculateNumericStats values).skewness = .jnum (.fin (roundTo 4 q))) ∧
    (∀ q : ℚ, q ≠ 0 → kurtRawOf (numericValuesOf values) = .jnum (.fin q) →
      (calculateNumericStats values).kurtosis = .jnum (.fin (roundTo 4 q))) := by
  refine ⟨?_, ?_, ?_, ?_, ?_, ?_, ?_⟩
  · intro h
    by_cases hE : numericValuesOf values = []
    · rw [calculateNumericStats]
      rw [if_pos (by simpa [List.isEmpty_iff] using hE)]
    · rw [calculateNumericStats_fields values hE]
      have : skewRawOf (numericValuesOf values) = .jnull := by
        rw [skewRawOf, if_neg (by omega)]
      simp only [this]
      rfl
  · intro h
    by_cases hE : numericValuesOf values = []
    · rw [calculateNumericStats]
      rw [if_pos (by simpa [List.isEmpty_iff] using hE)]
    · rw [calculateNumericStats_fields values hE]
      have : kurtRawOf (numericValuesOf values) = .jnull := by
        rw [kurtRawOf, if_neg (by omega)]
      simp only [this]
      rfl
  · intro h
    have h3 := skewRawOf_jnum_imp _ _ h
    have hE : numericValuesOf values ≠ [] := by
      intro hc
      rw [hc] at h3
      simp at h3
    rw [calculateNumericStats_fields values hE]
    simp only [h]
    rfl
  · intro h
    have h3 := kurtRawOf_jnum_imp _ _ h
    have hE : numericValuesOf values ≠ [] := by
      intro hc
      rw [hc] at h3
      simp at h3
    rw [calculateNumericStats_fields values hE]
    simp only [h]
    rfl
  · intro hE
    rw [calculateNumericStats_fields values hE]
    exact ⟨rfl, rfl, rfl, rfl⟩
  · intro q hq h
    have h3 := skewRawOf_jnum_imp _ _ h
    have hE : numericValuesOf values ≠ [] := by
      intro hc
      rw [hc] at h3
      simp at h3
    rw [calculateNumericStats_fields values hE]
    simp only [h, jfalsyRound4]
    rw [if_pos (by simpa [jsTruthy] using hq)]
    rfl
  · intro q hq h
    have h3 := kurtRawOf_jnum_imp _ _ h
    have hE : numericValuesOf values ≠ [] := by
      intro hc
      rw [hc] at h3
      simp at h3
    rw [calculateNumericStats_fields values hE]
    simp only [h, jfalsyRound4]
    rw [if_pos (by simpa [jsTruthy] using hq)]
    rfl

/-- Claim C8 witness: the amended theorem applied to concrete samples — the
two-value sample gets null skewness, the skewed three-value sample gets its
nonzero skewness 2/27 rounded to 4 decimals, and the four-value sample gets
its nonzero excess kurtosis −27/16 rounded to 4 decimals. -/
theorem calculateNumericStats_moment_rounding_witness :
    (calculateNumericStats [.vnum (.fin 1), .vnum (.fin 2)]).skewness = .jnull ∧
    (calculateNumericStats [.vnum (.fin 1), .vnum (.fin 1), .vnum (.fin 2)]).skewness =
      .jnum (.fin (roundTo 4 (2 / 27))) ∧
    (calculateNumericStats
        [.vnum (.fin 1), .vnum (.fin 1), .vnum (.fin 1), .vnum (.fin 2)]).kurtosis =
      .jnum (.fin (roundTo 4 (-27 / 16))) :=
  ⟨(calculateNumericStats_moment_rounding [.vnum (.fin 1), .vnum (.fin 2)]).1
      (by with_unfolding_all decide),
   (calculateNumericStats_moment_rounding
      [.vnum (.fin 1), .vnum (.fin 1), .vnum (.fin 2)]).2.2.2.2.2.1 (2 / 27)
      (by with_unfolding_all decide) (by with_unfolding_all decide),
   (calculateNumericStats_moment_rounding
      [.vnum (.fin 1), .vnum (.fin 1), .vnum (.fin 1), .vnum (.fin 2)]).2.2.2.2.2.2 (-27 / 16)
      (by with_unfolding_all decide) (by with_unfolding_all decide)⟩

/-! Claim C6. -/

theorem find_map_pair {β : Type} (f : String → β) :
    ∀ (l : List String) (a : String), a ∈ l →
      (l.map fun c => (c, f c)).find? (fun p => p.1 == a) = some (a, f a) := by
  intro l
  induction l with
  | nil => intro a ha; exact absurd ha (List.not_mem_nil a)
  | cons c t ih =>
    intro a ha
    rw [List.map_cons]
    by_cases hca : c = a
    · subst hca
      rw [List.find?_cons_of_pos _ (by simp)]
    · rw [List.find?_cons_of_neg _ (by simpa using hca)]
      exact ih a (by rcases List.mem_cons.mp ha with h | h; exact absurd h.symm hca; exact h)

theorem lookupCorr_eq (data : List Row) (cols : List String) (a b : String)
    (ha : a ∈ cols) (hb : b ∈ cols) :
    lookupCorr (calculateCorrelationMatrix data cols) a b = some (corrCell data a b) := by
  rw [lookupCorr, calculateCorrelationMatrix]
  rw [find_map_pair (fun c1 => cols.map fun c2 => (c2, corrCell data c1 c2)) cols a ha]
  show Option.map Prod.snd
      ((cols.map fun c2 => (c2, corrCell data a c2)).find? fun q => q.1 == b) =
    some (corrCell data a b)
  rw [find_map_pair (fun c2 => corrCell data a c2) cols b hb]
  rfl

theorem zipWith_mul_self (l : List ℚ) : List.zipWith (· * ·) l l = l.map fun x => x * x := by
  induction l with
  | nil => rfl
  | cons a t ih => simp [List.zipWith_cons_cons, ih]

theorem pearson_symm (x y : List ℚ) : pearsonCorrelation x y = pearsonCorrelation y x := by
  by_cases h : x.length = y.length
  · by_cases h0 : x.length = 0
    · rw [pearsonCorrelation, pearsonCorrelation]
      rw [if_pos (Or.inr h0), if_pos (Or.inr (show y.length = 0 by omega))]
    · have hxy : ((x.length : ℚ)) = ((y.length : ℚ)) := by exact_mod_cast h
      simp only [pearsonCorrelation]
      rw [if_neg (show ¬(x.length ≠ y.length ∨ x.length = 0) by
            rintro (hc | hc) <;> omega),
        if_neg (show ¬(y.length ≠ x.length ∨ y.length = 0) by
            rintro (hc | hc) <;> omega)]
      have hnum : (x.length : ℚ) * (List.zipWith (· * ·) x y).sum - x.sum * y.sum
          = (y.length : ℚ) * (List.zipWith (· * ·) y x).sum - y.sum * x.sum := by
        rw [List.zipWith_comm_of_comm _ mul_comm x y, hxy]
        ring
      have hden : ((x.length : ℚ) * (x.map fun xi => xi * xi).sum - x.sum * x.sum) *
            ((x.length : ℚ) * (y.map fun yi => yi * yi).sum - y.sum * y.sum)
          = ((y.length : ℚ) * (y.map fun yi => yi * yi).sum - y.sum * y.sum) *
            ((y.length : ℚ) * (x.map fun xi => xi * xi).sum - x.sum * x.sum) := by
        rw [hxy]
        ring
      rw [hnum, hden]
  · rw [pearsonCorrelation, pearsonCorrelation]
    rw [if_pos (Or.inl h), if_pos (Or.inl (fun hc => h hc.symm))]

theorem corrCell_symm (data : List Row) (a b : String) :
    corrCell data a b = corrCell data b a := by
  rw [corrCell, corrCell]
  by_cases h : (colFiniteValues data a).length = (colFiniteValues data b).length
  · by_cases h1 : 1 < (colFiniteValues data a).length
    · rw [if_pos ⟨h, h1⟩, if_pos ⟨h.symm, h ▸ h1⟩]
      exact pearson_symm _ _
    · rw [if_neg (fun hc => h1 hc.2), if_neg (fun hc => h1 (h ▸ hc.2))]
  · rw [if_neg (fun hc => h hc.1), if_neg (fun hc => h hc.1.symm)]

theorem sum_sq_dev (v : List ℚ) (m : ℚ) :
    (v.map fun x => (x - m) ^ 2).sum =
      (v.map fun x => x * x).sum - 2 * m * v.sum + (v.length : ℚ) * m ^ 2 := by
  induction v with
  | nil => simp
  | cons a t ih =>
    simp only [List.map_cons, List.sum_cons, List.length_cons, ih]
    push_cast
    ring

theorem d_pos (v : List ℚ) (h2 : 2 ≤ v.length)
    (hnc : ∃ x ∈ v, ∃ y ∈ v, x ≠ y) :
    0 < (v.length : ℚ) * (v.map fun x => x * x).sum - v.sum * v.sum := by
  have hnpos : (0 : ℚ) < (v.length : ℚ) := by
    have : (2 : ℚ) ≤ (v.length : ℚ) := by exact_mod_cast h2
    linarith
  set m := v.sum / (v.length : ℚ) with hm
  have hD : (v.length : ℚ) * (v.map fun x => (x - m) ^ 2).sum
      = (v.length : ℚ) * (v.map fun x => x * x).sum - v.sum * v.sum := by
    rw [sum_sq_dev v m, hm]
    field_simp
    ring
  have hS2nonneg : 0 ≤ (v.map fun x => (x - m) ^ 2).sum := by
    apply List.sum_nonneg
    intro q hq
    obtain ⟨w, -, rfl⟩ := List.mem_map.mp hq
    positivity
  have hS2ne : (v.map fun x => (x - m) ^ 2).sum ≠ 0 := by
    intro h0
    have hall := list_map_sum_zero v (fun x => (x - m) ^ 2) (fun x => by positivity) h0
    obtain ⟨x, hx, y, hy, hxy⟩ := hnc
    have hxm : x = m := by
      have hsq := hall x hx
      have := pow_eq_zero_iff (n := 2) (by norm_num) |>.mp hsq
      linarith [sub_eq_zero.mp this]
    have hym : y = m := by
      have hsq := hall y hy
      have := pow_eq_zero_iff (n := 2) (by norm_num) |>.mp hsq
      linarith [sub_eq_zero.mp this]
    exact hxy (hxm.trans hym.symm)
  have hS2pos : 0 < (v.map fun x => (x - m) ^ 2).sum :=
    lt_of_le_of_ne hS2nonneg (Ne.symm hS2ne)
  rw [← hD]
  exact mul_pos hnpos hS2pos

theorem pearson_self (v : List ℚ) (h2 : 2 ≤ v.length)
    (hD : 0 < (v.length : ℚ) * (v.map fun x => x * x).sum - v.sum * v.sum) :
    pearsonCorrelation v v = 1 := by
  have hne : v.length ≠ 0 := by omega
  simp only [pearsonCorrelation]
  rw [if_neg (by rintro (hc | hc); exacts [hc rfl, hne hc])]
  rw [zipWith_mul_self]
  rw [ratSqrt_mul_self _ (le_of_lt hD)]
  rw [if_neg (ne_of_gt hD)]
  rw [div_self (ne_of_gt hD)]
  rw [roundTo]
  norm_num

/-- Claim C6 counterexample: a constant two-value column self-correlates as 0
(the denominator-zero guard), not 1, although the sample is equal,
fully overlapping and has 2 values. -/
theorem correlationMatrix_constant_self_zero :
    colFiniteValues [[("a", JSVal.vnum (.fin 1))], [("a", JSVal.vnum (.fin 1))]] "a" =
      [1, 1] ∧
    lookupCorr (calculateCorrelationMatrix
        [[("a", JSVal.vnum (.fin 1))], [("a", JSVal.vnum (.fin 1))]] ["a"]) "a" "a" =
      some 0 ∧
    lookupCorr (calculateCorrelationMatrix
        [[("a", JSVal.vnum (.fin 1))], [("a", JSVal.vnum (.fin 1))]] ["a"]) "a" "a" ≠
      some 1 := by
  refine ⟨?_, ?_, ?_⟩ <;> with_unfolding_all decide

/-- Claim C6 (amended): the correlation matrix is symmetric — for all numeric
columns a and b the (a,b) and (b,a) entries agree — and the self-correlation
of a column with at least 2 finite values equals 1 provided the sample is not
constant; a constant sample self-correlates as 0 under the denominator-zero
guard. -/
theorem correlationMatrix_self_symm (data : List Row) (cols : List String) :
    (∀ a ∈ cols, ∀ b ∈ cols,
      lookupCorr (calculateCorrelationMatrix data cols) a b =
        lookupCorr (calculateCorrelationMatrix data cols) b a) ∧
    (∀ c ∈ cols, 2 ≤ (colFiniteValues data c).length →
      (∃ x ∈ colFiniteValues data c, ∃ y ∈ colFiniteValues data c, x ≠ y) →
      lookupCorr (calculateCorrelationMatrix data cols) c c = some 1) := by
  constructor
  · intro a ha b hb
    rw [lookupCorr_eq data cols a b ha hb, lookupCorr_eq data cols b a hb ha,
      corrCell_symm]
  · intro c hc h2 hnc
    rw [lookupCorr_eq data cols c c hc hc]
    rw [corrCell, if_pos ⟨rfl, by omega⟩]
    rw [pearson_self _ h2 (d_pos _ h2 hnc)]

/-- Claim C6 witness: the amended theorem applied to a concrete two-row
dataset with a non-constant numeric column. -/
theorem correlationMatrix_self_symm_witness :
    lookupCorr (calculateCorrelationMatrix
        [[("a", JSVal.vnum (.fin 1))], [("a", JSVal.vnum (.fin 2))]] ["a"]) "a" "a" =
      some 1 :=
  (correlationMatrix_self_symm
      [[("a", JSVal.vnum (.fin 1))], [("a", JSVal.vnum (.fin 2))]] ["a"]).2 "a"
    (by with_unfolding_all decide) (by with_unfolding_all decide)
    (by with_unfolding_all decide)
